import Mathlib

/-!
# Verification of the YouTube transcription batch pipeline

Shallow embedding of the three scripts of the repository
(`youtube_transcriber.py`, `main.py`, `process_failed_videos.py`) and proofs
of the specification claims about them.

Conventions:
* Python strings are Lean `String`; Python string primitives (`strip`,
  `split`, `in`, `float(...)`) are modelled by explicit executable functions
  (`pyStrip`, `pySplitOn`, `strIn`, `pyFloat`) defined below.
* Machine floats are idealised as exact rationals; all float values this
  program manipulates are exact decimals, and the claims under study only
  concern equality, ordering and exact arithmetic on them.  The rational
  type `Frac` below stores reduced fractions and its operations are
  kernel-computable (structural gcd), so concrete runs evaluate by `decide`.
* File-system effects are modelled by explicit state passing: the persisted
  status file is a field of a `World` record, appends to the failure file are
  list appends, and every `save_status` call is logged.
-/

/-- Python whitespace characters recognised by `str.strip()` (ASCII range,
which is all that occurs in the data handled by this program). -/
def isPyWS (c : Char) : Bool :=
  c = ' ' ∨ c = '\t' ∨ c = '\n' ∨ c = '\x0d' ∨ c = Char.ofNat 11 ∨ c = Char.ofNat 12

/-- Strip `isPyWS` characters from both ends of a character list. -/
def stripChars (l : List Char) : List Char :=
  ((l.dropWhile isPyWS).reverse.dropWhile isPyWS).reverse

/-- Model of Python `str.strip()`. -/
def pyStrip (s : String) : String :=
  ⟨stripChars s.data⟩

/-- Exact rational numbers as fractions `num / den`, the idealisation of the
Python float values occurring in this program.  All constructors used below
produce reduced fractions with positive denominator, so structural equality
coincides with value equality on every value the embedding builds. -/
structure Frac where
  num : ℤ
  den : ℕ
deriving DecidableEq, Repr

/-- Euclidean algorithm with explicit fuel (structural recursion, so it
reduces inside the kernel; the fuel in `fgcd` always suffices). -/
def fgcdAux : ℕ → ℕ → ℕ → ℕ
  | 0, a, _ => a
  | f + 1, a, b => if a = 0 then b else fgcdAux f (b % a) a

/-- Greatest common divisor via `fgcdAux`. -/
def fgcd (a b : ℕ) : ℕ :=
  fgcdAux (a + b + 1) a b

/-- Build the reduced fraction `n / d` (every use has `d ≠ 0`). -/
def Frac.mk' (n : ℤ) (d : ℕ) : Frac :=
  if d = 0 then ⟨0, 1⟩
  else
    let g := fgcd n.natAbs d
    ⟨n / (g : ℤ), d / g⟩

instance (n : ℕ) : OfNat Frac n := ⟨⟨(n : ℤ), 1⟩⟩

instance : NatCast Frac := ⟨fun n => ⟨(n : ℤ), 1⟩⟩

instance : IntCast Frac := ⟨fun n => ⟨n, 1⟩⟩

instance : Add Frac :=
  ⟨fun a b => Frac.mk' (a.num * (b.den : ℤ) + b.num * (a.den : ℤ)) (a.den * b.den)⟩

instance : Sub Frac :=
  ⟨fun a b => Frac.mk' (a.num * (b.den : ℤ) - b.num * (a.den : ℤ)) (a.den * b.den)⟩

instance : Mul Frac :=
  ⟨fun a b => Frac.mk' (a.num * b.num) (a.den * b.den)⟩

instance : Neg Frac := ⟨fun a => ⟨-a.num, a.den⟩⟩

instance : Div Frac :=
  ⟨fun a b => Frac.mk' (a.num * (b.den : ℤ) * b.num.sign) (a.den * b.num.natAbs)⟩

instance : LT Frac := ⟨fun a b => a.num * (b.den : ℤ) < b.num * (a.den : ℤ)⟩

instance : LE Frac := ⟨fun a b => a.num * (b.den : ℤ) ≤ b.num * (a.den : ℤ)⟩

instance (a b : Frac) : Decidable (a < b) :=
  inferInstanceAs (Decidable (a.num * (b.den : ℤ) < b.num * (a.den : ℤ)))

instance (a b : Frac) : Decidable (a ≤ b) :=
  inferInstanceAs (Decidable (a.num * (b.den : ℤ) ≤ b.num * (a.den : ℤ)))

/-- Model of Python `sep.join`-free splitting `s.split(sep)` for a nonempty
separator, over character lists.  `sep` is passed with an explicit head so the
separator is never empty. -/
def pySplitFuel (c0 : Char) (sep : List Char) : ℕ → List Char → List (List Char)
  | _, [] => [[]]
  | 0, a :: rest => [a :: rest]
  | f + 1, a :: rest =>
    if (c0 :: sep).isPrefixOf (a :: rest) then
      [] :: pySplitFuel c0 sep f (List.drop sep.length rest)
    else
      match pySplitFuel c0 sep f rest with
      | [] => [[a]]
      | h :: t => (a :: h) :: t

/-- Splitting on `c0 :: sep`.  Each step of `pySplitFuel` consumes at least
one character, so the fuel `l.length + 1` is always sufficient and the
fuel-exhaustion arm is unreachable. -/
def pySplitChars (c0 : Char) (sep : List Char) (l : List Char) : List (List Char) :=
  pySplitFuel c0 sep (l.length + 1) l

/-- Model of Python `s.split(sep)` (nonempty separator). -/
def pySplitOn (sep s : String) : List String :=
  match sep.data with
  | [] => [s]
  | c0 :: sepRest => (pySplitChars c0 sepRest s.data).map String.mk

/-- Model of the Python substring test `pat in s` (nonempty `pat`):
a separator occurs iff splitting on it yields more than one part. -/
def strIn (pat s : String) : Bool :=
  1 < (pySplitOn pat s).length

/-- Numeric value of a digit string (empty string contributes 0). -/
def digitsVal (l : List Char) : ℕ :=
  l.foldl (fun a c => a * 10 + (c.toNat - 48)) 0

/-- Model of Python `float(str)` on finite decimal forms: optional
whitespace, optional sign, `digits`, `digits.digits`, `.digits` or
`digits.`; everything else (as occurs in this program's inputs) fails.
Returns the exact rational value. -/
def pyFloat (s : String) : Option Frac :=
  let t := (pyStrip s).data
  let (sign, body) :=
    match t with
    | '-' :: r => ((-1 : Frac), r)
    | '+' :: r => ((1 : Frac), r)
    | r => ((1 : Frac), r)
  match (body.splitOnP (· = '.')) with
  | [ip] =>
      if ip ≠ [] ∧ ip.all Char.isDigit then some (sign * digitsVal ip) else none
  | [ip, fp] =>
      if (ip ≠ [] ∨ fp ≠ []) ∧ ip.all Char.isDigit ∧ fp.all Char.isDigit then
        some (sign * (digitsVal ip + (digitsVal fp : Frac) / ((10 ^ fp.length : ℕ) : Frac)))
      else none
  | _ => none

/-- Model of Python `' '.join l`. -/
def joinSpace (l : List String) : String :=
  String.intercalate " " l

/-- One caption span: `{text, start, duration}` as built by
`parse_subtitles` (floats idealised as `Frac`). -/
structure Span where
  text : String
  start : Frac
  duration : Frac
deriving DecidableEq, Repr

/-- Key used by the duplicate-removal pass of `parse_subtitles`:
`identifier = (sub['start'], sub['text'])`. -/
def Span.key (e : Span) : Frac × String := (e.start, e.text)

/-- The duplicate-removal loop of `parse_subtitles`: walk the list keeping
the first occurrence of each `(start, text)` key (`seen` accumulates keys). -/
def dedupAux : List Span → List (Frac × String) → List Span
  | [], _ => []
  | e :: rest, seen =>
    if e.key ∈ seen then dedupAux rest seen
    else e :: dedupAux rest (e.key :: seen)

/-- `unique_subtitles` of `parse_subtitles`. -/
def dedupSpans (l : List Span) : List Span :=
  dedupAux l []

namespace YTT

/-! ## `youtube_transcriber.py` : subtitle parsing (`YouTubeScraper.parse_subtitles`) -/
/-- `srt_time_to_seconds` without the enclosing bare `except`: `none` stands
for a raised `ValueError` inside the `try` body. -/
def srt_time_to_secondsE (time_str : String) : Option Frac := do
  let pair ←
    if strIn "," time_str then
      match pySplitOn "," time_str with
      | [a, b] => (pyFloat b).map (fun m => (a, m))
      | _ => none
    else if strIn "." time_str then
      match pySplitOn "." time_str with
      | [a, b] => (pyFloat b).map (fun m => (a, m))
      | _ => none
    else some (time_str, (0 : Frac))
  let tp ← (pySplitOn ":" pair.1).mapM pyFloat
  let ms := pair.2
  match tp with
  | [h, m, s] => some (h * 3600 + m * 60 + s + ms / 1000)
  | [m, s] => some (m * 60 + s + ms / 1000)
  | x :: _ => some (x + ms / 1000)
  | [] => none

/-- `YouTubeScraper.srt_time_to_seconds`: the bare `except` clause turns any
parse failure into the value `0`. -/
def srt_time_to_seconds (time_str : String) : Frac :=
  (srt_time_to_secondsE time_str).getD 0

/-- The SRT while-loop of `parse_subtitles`, over the pre-stripped nonempty
lines.  A line containing `-->` is split; both times go through
`srt_time_to_seconds` (which never raises, so the `except (IndexError,
ValueError)` arm of the source is unreachable); the following line, when
present and nonempty after stripping, is appended as a span and the loop
advances two lines.  A line without `-->` advances one line. -/
def srtParse : List String → List Span
  | [] => []
  | [l] => if strIn "-->" l then [] else []
  | l :: c :: rest =>
    if strIn "-->" l then
      let times := pySplitOn "-->" l
      let s := srt_time_to_seconds (pyStrip (times.headD ""))
      let e := srt_time_to_seconds (pyStrip (times.getD 1 ""))
      let content := pyStrip c
      (if content ≠ "" then [⟨content, s, e - s⟩] else []) ++ srtParse rest
    else srtParse (c :: rest)

/-- `[line.strip() for line in sub_data.split('\n') if line.strip()]`. -/
def srtLines (raw : String) : List String :=
  ((pySplitOn "\n" raw).map pyStrip).filter (fun l => l ≠ "")

/-- One `<text ...>` element as produced by BeautifulSoup on the raw payload:
the raw `start` attribute if present, the raw `dur` attribute if present, and
the `get_text()` content. -/
structure XmlElem where
  start : Option String
  dur : Option String
  content : String
deriving DecidableEq, Repr

/-- The per-element body of the XML branch of `parse_subtitles`:
`float(text['start'])`, a missing `start` (KeyError) or unparsable
`start`/`dur` (ValueError) silently drops the element (`none`); `dur`
defaults to `0`; only non-empty stripped content is kept. -/
def xmlElemSpan (a : XmlElem) : Option Span := do
  let sv ← a.start
  let st ← pyFloat sv
  let d ← match a.dur with
          | none => some (0 : Frac)
          | some dv => pyFloat dv
  let c := pyStrip a.content
  if c ≠ "" then some ⟨c, st, d⟩ else none

/-- The XML branch loop of `parse_subtitles`. -/
def xmlSpans (l : List XmlElem) : List Span :=
  l.filterMap xmlElemSpan

/-- One segment of a JSON `events` entry (`seg.get('utf8', '')`). -/
structure JSeg where
  utf8 : Option String
deriving DecidableEq, Repr

/-- One JSON event: optional `segs` list, optional `tStartMs` and
`dDurationMs` (absent fields default to `0` via `event.get(..., 0)`). -/
structure JEvent where
  segs : Option (List JSeg)
  tStartMs : Option Frac
  dDurationMs : Option Frac
deriving DecidableEq, Repr

/-- The per-event body of the JSON branch of `parse_subtitles`: an event
whose `segs` entry is present and a nonempty list contributes the stripped
space-joined segment texts with `tStartMs/1000` and `dDurationMs/1000`
(absent millisecond fields default to `0`). -/
def jsonEventSpan (ev : JEvent) : Option Span :=
  match ev.segs with
  | some (s0 :: ss) =>
    let st := (ev.tStartMs.getD 0) / 1000
    let d := (ev.dDurationMs.getD 0) / 1000
    let c := pyStrip (joinSpace ((s0 :: ss).map (fun sg => sg.utf8.getD "")))
    if c ≠ "" then some ⟨c, st, d⟩ else none
  | _ => none

/-- The JSON branch loop of `parse_subtitles`. -/
def jsonSpans (l : List JEvent) : List Span :=
  l.filterMap jsonEventSpan

/-- Result of `json.loads(sub_data)` followed by `data['events']`:
a decode failure (caught: `pass`), a parsed document without an `events` key
(uncaught KeyError), or the events list. -/
inductive JsonEventsData where
  | decodeErr
  | noEventsKey
  | events (evs : List JEvent)
deriving Repr

/-- A raw payload together with the outcome of the two external parsers on
it: `xmlElems` models `BeautifulSoup(raw, 'html.parser').find_all('text')`
and `jsonData` models `json.loads(raw)` / `data['events']`.  The format
sniffing itself reads `raw`. -/
structure SubData where
  raw : String
  xmlElems : List XmlElem
  jsonData : JsonEventsData

/-- The format-sniffing dispatch of `parse_subtitles`, before the emptiness
check and the dedup pass: `'<text start=' in sub_data` selects XML, else
`'events' in sub_data` selects JSON, else `'-->' in sub_data` selects SRT,
else no branch runs.  `Except.error` models an uncaught exception re-raised
as a subtitle parsing error. -/
def rawSpansE (p : SubData) : Except String (List Span) :=
  if strIn "<text start=" p.raw then .ok (xmlSpans p.xmlElems)
  else if strIn "events" p.raw then
    match p.jsonData with
    | .decodeErr => .ok []
    | .noEventsKey => .error "Subtitle parsing error: 'events'"
    | .events evs => .ok (jsonSpans evs)
  else if strIn "-->" p.raw then .ok (srtParse (srtLines p.raw))
  else .ok []

/-- `YouTubeScraper.parse_subtitles`: dispatch on the sniffed format, raise
if no spans were produced, then remove exact `(start, text)` duplicates. -/
def parse_subtitles (p : SubData) : Except String (List Span) := do
  let subs ← rawSpansE p
  if subs.isEmpty then
    throw "Subtitle parsing error: No valid subtitles found in the data"
  else
    pure (dedupSpans subs)

/-! ## `youtube_transcriber.py` : `save_individual_transcript` -/
/-- The write loop of `save_individual_transcript` with `previous_text`
threaded through.  Each emitted pair `(start, text)` stands for the file line
`"[" ++ format_timestamp start ++ "] " ++ text`; a line is written only when
its stripped text differs from the previously written one. -/
def saveIndividualAux : List Span → Option String → List (Frac × String)
  | [], _ => []
  | e :: rest, prev =>
    let cur := pyStrip e.text
    if prev ≠ some cur then (e.start, cur) :: saveIndividualAux rest (some cur)
    else saveIndividualAux rest prev

/-- `save_individual_transcript` (timestamped per-item output file),
as the list of `(start seconds, caption text)` lines written. -/
def save_individual_transcript (tr : List Span) : List (Frac × String) :=
  saveIndividualAux tr none

end YTT

namespace MainPy

/-- `main.py` `save_transcript_to_file`: writes `entry['text']` of every
entry, one line each, with no collapse and no stripping. -/
def save_transcript_to_file (tr : List Span) : List String :=
  tr.map (fun e => e.text)

end MainPy

/-- Invariant of every span list the branches of `parse_subtitles` build:
the text is nonempty and already stripped. -/
def GoodText (e : Span) : Prop :=
  e.text ≠ "" ∧ pyStrip e.text = e.text

instance {e : Type u} {a : Type v} [DecidableEq e] [DecidableEq a] :
    DecidableEq (Except e a) := fun x y =>
  match x, y with
  | .ok v, .ok w => decidable_of_iff (v = w) (by simp)
  | .error v, .error w => decidable_of_iff (v = w) (by simp)
  | .ok _, .error _ => isFalse (by simp)
  | .error _, .ok _ => isFalse (by simp)

/-- Concrete SRT payload whose two blocks are exact `(start, text)`
duplicates of each other. -/
def c6Payload : YTT.SubData :=
  ⟨"00:00:01,000 --> 00:00:02,500\nhello\n00:00:01,000 --> 00:00:02,500\nhello",
    [], .decodeErr⟩

namespace YTT

/-- Modelled from the spec (§4.4, SRT-like): "a malformed timecode line is
skipped (advance one line) rather than aborting the whole parse".  Identical
to `srtParse` except that a timecode line whose times do not both parse
contributes nothing and the parser advances one line. -/
def srtParseSpec : List String → List Span
  | [] => []
  | [_] => []
  | l :: c :: rest =>
    if strIn "-->" l then
      let times := pySplitOn "-->" l
      match srt_time_to_secondsE (pyStrip (times.headD "")),
            srt_time_to_secondsE (pyStrip (times.getD 1 "")) with
      | some s, some e =>
        let content := pyStrip c
        (if content ≠ "" then [⟨content, s, e - s⟩] else []) ++ srtParseSpec rest
      | _, _ => srtParseSpec (c :: rest)
    else srtParseSpec (c :: rest)

/-! ## `youtube_transcriber.py` : job status, rate limiting, `process_video` -/
/-- `BASE_DELAY = 60`. -/
def BASE_DELAY : Frac := 60

/-- `BATCH_SIZE = 50`. -/
def BATCH_SIZE : ℕ := 50

/-- The persisted `processing_status.json` record.  (The `batch_count` key
present in the JSON is never read or written by any code path modelled here,
so it is omitted.) -/
structure YStatus where
  completed : List String
  pending : List String
  last_request_time : Option Frac
  processed_count : ℕ
deriving DecidableEq, Repr

/-- The state threaded through a sequential run: the persisted status file
(`disk`), the append-only `failed_videos.txt` contents, the wall clock
(`now`), plus instrumentation: every status ever passed to `save_status`
(`saved`), every rate-limit acquisition as
`(post-wait time, last_request_time value read, computed delay)`
(`acquisitions`), and the number of upstream fetch calls (`fetches`). -/
structure World where
  disk : YStatus
  failedFile : List String
  now : Frac
  saved : List YStatus
  acquisitions : List (Frac × Frac × Frac)
  fetches : ℕ
deriving DecidableEq, Repr

/-- `save_status(status)`: overwrite the status file. -/
def save_status (w : World) (st : YStatus) : World :=
  {w with disk := st, saved := w.saved ++ [st]}

/-- `enforce_rate_limit(status)`: reads `last_request_time` (Python
truthiness — `None` and `0` both skip the wait), computes
`delay = 2*BASE_DELAY + uniform(30,60)` when the persisted processed count
is a positive multiple of 10 and `BASE_DELAY + uniform(10,20)` otherwise
(the uniform draw is the `jitter` argument), sleeps out the remainder of the
delay, then stores the post-sleep time in the status.  Returns the updated
status, the post-sleep clock, and — when the delay branch ran — the
`(value read, delay)` pair. -/
def enforce_rate_limit (st : YStatus) (now : Frac) (jitter : Frac) :
    YStatus × Frac × Option (Frac × Frac) :=
  match st.last_request_time with
  | some l =>
    if l = 0 then ({st with last_request_time := some now}, now, none)
    else
      let delay :=
        if st.processed_count % 10 = 0 ∧ 0 < st.processed_count then
          2 * BASE_DELAY + jitter
        else BASE_DELAY + jitter
      let elapsed := now - l
      let now1 := if elapsed < delay then now + (delay - elapsed) else now
      ({st with last_request_time := some now1}, now1, some (l, delay))
  | none => ({st with last_request_time := some now}, now, none)

/-- Per-call inputs of `process_video`: the video id (URL-to-id parsing is
out of scope; the id is taken as given and valid), the jitter drawn inside
`enforce_rate_limit`, the outcome of `get_transcript_ytdlp` (`none` models a
raised exception), the wall-clock duration of the fetch, and the jitter of
the inter-batch sleep. -/
structure PVInput where
  vid : String
  jitter : Frac
  fetch : Option (List Span)
  fetchDur : Frac
  batchJitter : Frac
deriving DecidableEq, Repr

/-- `extract_transcript(video_id)`: short-circuit on the persisted failure
list (`is_video_failed` re-reads the file on every call); otherwise
`load_status()`, `enforce_rate_limit(status)` (which saves the status), one
fetch attempt, and on any failure (exception or falsy transcript) append the
id to `failed_videos.txt` and return `None`. -/
def extract_transcript (w : World) (inp : PVInput) : World × Option (List Span) :=
  if inp.vid ∈ w.failedFile then (w, none)
  else
    let r := enforce_rate_limit w.disk w.now inp.jitter
    let w1 := { save_status w r.1 with
                now := r.2.1,
                acquisitions := w.acquisitions ++
                  (match r.2.2 with
                   | some a => [(r.2.1, a.1, a.2)]
                   | none => []) }
    let w2 := {w1 with now := w1.now + inp.fetchDur, fetches := w1.fetches + 1}
    match inp.fetch with
    | some tr =>
      if tr.isEmpty then ({w2 with failedFile := w2.failedFile ++ [inp.vid]}, none)
      else (w2, some tr)
    | none => ({w2 with failedFile := w2.failedFile ++ [inp.vid]}, none)

/-- `process_video(video_url)` for a valid id: skip ids already completed;
mark the id pending (and save) when not already pending; extract; on failure
remove the id from the local copy of `pending` and save; on success append
to `completed`, bump `processed_count`, remove from `pending`, save, write
the per-item file, and sleep between batches.  Note that the final
`save_status` writes the status object loaded *before* the fetch, so it
restores the pre-request `last_request_time`. -/
def process_video (w : World) (inp : PVInput) : World × Bool :=
  let st := w.disk
  if inp.vid ∈ st.completed then (w, true)
  else
    let stP := if inp.vid ∈ st.pending then st
               else {st with pending := st.pending ++ [inp.vid]}
    let w1 := if inp.vid ∈ st.pending then w else save_status w stP
    match extract_transcript w1 inp with
    | (w2, none) =>
      let stF := {stP with pending := stP.pending.erase inp.vid}
      (save_status w2 stF, false)
    | (w2, some _) =>
      let stS :=
        {stP with
          completed := stP.completed ++ [inp.vid],
          processed_count := stP.processed_count + 1,
          pending := stP.pending.erase inp.vid}
      let w3 := save_status w2 stS
      let w4 := if stS.processed_count % BATCH_SIZE = 0 then
                  {w3 with now := w3.now + inp.batchJitter}
                else w3
      (w4, true)

/-- `completed ∩ pending = ∅` for one status record. -/
def Disj (st : YStatus) : Prop :=
  ∀ x ∈ st.completed, x ∉ st.pending

/-- The inductive invariant: disjointness plus no duplicate pending entries
(the program only appends an id to `pending` when absent). -/
def StInv (st : YStatus) : Prop :=
  Disj st ∧ st.pending.Nodup

end YTT

namespace MainPy

/-- `MAX_RETRIES = 1`. -/
def MAX_RETRIES : ℕ := 1

/-- Outcome of one upstream attempt inside `main.py`'s `extract_transcript`:
success, HTTP 429, another HTTP error, one of the permanent exceptions
(`TranscriptsDisabled`, `NoTranscriptFound`, `VideoUnavailable`), or a
generic exception. -/
inductive MOutcome where
  | ok (tr : List Span)
  | http429
  | httpOther (code : ℕ)
  | permanentExc
  | otherExc
deriving DecidableEq, Repr

/-- Observable result of `main.py`'s `extract_transcript`: the returned
transcript, the resulting `failed_videos.txt` contents, the number of
upstream calls made, and the number of `enforce_rate_limit` status saves. -/
structure ExtractRes where
  result : Option (List Span)
  failedFile : List String
  fetches : ℕ
  statusSaves : ℕ
deriving DecidableEq, Repr

/-- The `for attempt in range(MAX_RETRIES)` loop of `extract_transcript`:
one list element per attempt (the list length is the configured attempt
budget).  Each attempt loads the status, runs `enforce_rate_limit` (counted
in `statusSaves`) and calls the API (counted in `fetches`).  A 429 logs the
error, sleeps and continues — it never logs the video as failed; a non-429
HTTP error and the permanent exceptions log the video as failed and return
`None`; a generic exception logs the video as failed only when it is the
final attempt, then continues.  An exhausted loop returns `None`. -/
def extractLoop (vid : String) : List MOutcome → List String → ℕ → ℕ → ExtractRes
  | [], ff, fc, sv => ⟨none, ff, fc, sv⟩
  | o :: rest, ff, fc, sv =>
    match o with
    | .ok tr => ⟨some tr, ff, fc + 1, sv + 1⟩
    | .http429 => extractLoop vid rest ff (fc + 1) (sv + 1)
    | .httpOther _ => ⟨none, ff ++ [vid], fc + 1, sv + 1⟩
    | .permanentExc => ⟨none, ff ++ [vid], fc + 1, sv + 1⟩
    | .otherExc =>
      if rest.isEmpty then ⟨none, ff ++ [vid], fc + 1, sv + 1⟩
      else extractLoop vid rest ff (fc + 1) (sv + 1)

/-- `main.py`'s `extract_transcript(video_id)`: the `is_video_failed` guard
runs before any attempt, re-reading the failure file, so it applies on the
very first call of a fresh process. -/
def extract_transcript (ff : List String) (vid : String)
    (outcomes : List MOutcome) : ExtractRes :=
  if vid ∈ ff then ⟨none, ff, 0, 0⟩
  else extractLoop vid outcomes ff 0 0

end MainPy

/-- Initial world of the C2 witness: fresh empty status. -/
def c2World : YTT.World := ⟨⟨[], [], none, 0⟩, [], 0, [], [], 0⟩

/-- Input of the C2 witness: one successfully fetched video. -/
def c2Inp : YTT.PVInput := ⟨"vid", 10, some [⟨"t", 0, 0⟩], 1, 0⟩

/-- World at the start of the C1 failing run: a prior request at time 100
(persisted), 9 videos already processed, clock at 100. -/
def c1World : YTT.World := ⟨⟨[], [], some 100, 9⟩, [], 100, [], [], 0⟩

/-- First video of the C1 failing run: normal-branch jitter 10 (drawn from
[10, 20]), fetch takes 1 second. -/
def c1InpA : YTT.PVInput := ⟨"vidA", 10, some [⟨"t", 0, 0⟩], 1, 0⟩

/-- Second video of the C1 failing run: long-branch jitter 30 (drawn from
[30, 60]), fetch takes 1 second. -/
def c1InpB : YTT.PVInput := ⟨"vidB", 30, some [⟨"t", 0, 0⟩], 1, 0⟩

/-- Fresh-process world of the C5 witness whose failure file already lists
the video. -/
def c5World : YTT.World := ⟨⟨[], [], none, 0⟩, ["v"], 0, [], [], 0⟩

/-- Input of the C5 witness. -/
def c5Inp : YTT.PVInput := ⟨"v", 0, none, 0, 0⟩

/-! ## A model of `json.load` / `json.dump`, for `load_status` / `save_status` -/
/-- JSON value tree, the model of what `json.load` returns.  `jnonfinite`
covers the non-standard `NaN` / `Infinity` / `-Infinity` literals the Python
parser accepts. -/
inductive Json where
  | jnull
  | jbool (b : Bool)
  | jnum (q : Frac)
  | jnonfinite (tag : String)
  | jstr (s : String)
  | jarr (xs : List Json)
  | jobj (kvs : List (String × Json))

/-- JSON whitespace. -/
def skipWsJ : List Char → List Char
  | c :: rest =>
    if c = ' ' ∨ c = '\t' ∨ c = '\n' ∨ c = '\x0d' then skipWsJ rest else c :: rest
  | [] => []

/-- Expect a literal character sequence. -/
def parseLit (lit : List Char) (cs : List Char) : Option (List Char) :=
  if lit.isPrefixOf cs then some (cs.drop lit.length) else none

/-- Single-character JSON string escapes. -/
def escChar (e : Char) : Option Char :=
  if e = '"' then some '"'
  else if e = '\\' then some '\\'
  else if e = '/' then some '/'
  else if e = 'b' then some (Char.ofNat 8)
  else if e = 'f' then some (Char.ofNat 12)
  else if e = 'n' then some '\n'
  else if e = 'r' then some (Char.ofNat 13)
  else if e = 't' then some '\t'
  else none

/-- Hexadecimal digit test. -/
def isHexDigitC (c : Char) : Bool :=
  c.isDigit ∨ ('a' ≤ c ∧ c ≤ 'f') ∨ ('A' ≤ c ∧ c ≤ 'F')

/-- Hexadecimal digit value. -/
def hexVal (c : Char) : ℕ :=
  if c.isDigit then c.toNat - 48
  else if 'a' ≤ c ∧ c ≤ 'f' then c.toNat - 87
  else c.toNat - 55

/-- JSON string body (after the opening quote), with fuel; each step
consumes at least one character. -/
def parseJsonStr : ℕ → List Char → Option (List Char × List Char)
  | 0, _ => none
  | fuel + 1, cs =>
    match cs with
    | [] => none
    | '"' :: rest => some ([], rest)
    | '\\' :: rest =>
      match rest with
      | [] => none
      | e :: rest2 =>
        if e = 'u' then
          match rest2 with
          | h1 :: h2 :: h3 :: h4 :: rest3 =>
            if isHexDigitC h1 ∧ isHexDigitC h2 ∧ isHexDigitC h3 ∧ isHexDigitC h4 then
              (parseJsonStr fuel rest3).map (fun p =>
                (Char.ofNat (hexVal h1 * 4096 + hexVal h2 * 256
                  + hexVal h3 * 16 + hexVal h4) :: p.1, p.2))
            else none
          | _ => none
        else
          match escChar e with
          | some ch => (parseJsonStr fuel rest2).map (fun p => (ch :: p.1, p.2))
          | none => none
    | c :: rest =>
      if c.toNat < 32 then none
      else (parseJsonStr fuel rest).map (fun p => (c :: p.1, p.2))

/-- Exponent suffix of a JSON number. -/
def parseExp (base : Frac) (r : List Char) : Option (Frac × List Char) :=
  let (eneg, r1) :=
    match r with
    | '-' :: t => (true, t)
    | '+' :: t => (false, t)
    | t => (false, t)
  let ed := r1.takeWhile Char.isDigit
  if ed.isEmpty then none
  else
    let k := digitsVal ed
    some (if eneg then base / ((10 ^ k : ℕ) : Frac)
          else base * ((10 ^ k : ℕ) : Frac), r1.dropWhile Char.isDigit)

/-- JSON number (integer, fraction, optional exponent). -/
def parseJsonNum (cs : List Char) : Option (Json × List Char) :=
  let (neg, cs1) :=
    match cs with
    | '-' :: r => (true, r)
    | r => (false, r)
  let ip := cs1.takeWhile Char.isDigit
  let cs2 := cs1.dropWhile Char.isDigit
  if ip.isEmpty then none
  else
    let step2 : Option (Frac × List Char) :=
      match cs2 with
      | '.' :: r =>
        let fp := r.takeWhile Char.isDigit
        if fp.isEmpty then none
        else some ((digitsVal ip : Frac)
            + (digitsVal fp : Frac) / ((10 ^ fp.length : ℕ) : Frac),
          r.dropWhile Char.isDigit)
      | r => some ((digitsVal ip : Frac), r)
    match step2 with
    | none => none
    | some (base, cs3) =>
      let step3 : Option (Frac × List Char) :=
        match cs3 with
        | 'e' :: r => parseExp base r
        | 'E' :: r => parseExp base r
        | r => some (base, r)
      match step3 with
      | none => none
      | some (v, cs4) => some (.jnum (if neg then -v else v), cs4)

mutual

/-- One JSON value (fuel-bounded; the fuel supplied by `parseJson` always
suffices). -/
def parseJsonVal : ℕ → List Char → Option (Json × List Char)
  | 0, _ => none
  | fuel + 1, cs =>
    match skipWsJ cs with
    | [] => none
    | c :: rest =>
      if c = 'n' then (parseLit ['u', 'l', 'l'] rest).map (fun r => (.jnull, r))
      else if c = 't' then (parseLit ['r', 'u', 'e'] rest).map (fun r => (.jbool true, r))
      else if c = 'f' then
        (parseLit ['a', 'l', 's', 'e'] rest).map (fun r => (.jbool false, r))
      else if c = 'N' then
        (parseLit ['a', 'N'] rest).map (fun r => (.jnonfinite "NaN", r))
      else if c = 'I' then
        (parseLit ['n', 'f', 'i', 'n', 'i', 't', 'y'] rest).map
          (fun r => (.jnonfinite "Infinity", r))
      else if c = '"' then
        (parseJsonStr (rest.length + 1) rest).map (fun p => (.jstr ⟨p.1⟩, p.2))
      else if c = '[' then
        match skipWsJ rest with
        | ']' :: rest2 => some (.jarr [], rest2)
        | _ => (parseJsonElems fuel rest).map (fun p => (.jarr p.1, p.2))
      else if c = Char.ofNat 123 then
        match skipWsJ rest with
        | c2 :: rest2 =>
          if c2 = Char.ofNat 125 then some (.jobj [], rest2)
          else (parseJsonMembers fuel rest).map (fun p => (.jobj p.1, p.2))
        | [] => none
      else if c = '-' then
        match rest with
        | 'I' :: rest2 =>
          (parseLit ['n', 'f', 'i', 'n', 'i', 't', 'y'] rest2).map
            (fun r => (.jnonfinite "-Infinity", r))
        | _ => parseJsonNum (c :: rest)
      else if c.isDigit then parseJsonNum (c :: rest)
      else none

/-- Nonempty comma-separated array elements up to `]`. -/
def parseJsonElems : ℕ → List Char → Option (List Json × List Char)
  | 0, _ => none
  | fuel + 1, cs => do
    let (v, cs1) ← parseJsonVal fuel cs
    match skipWsJ cs1 with
    | ',' :: rest => do
      let (vs, cs2) ← parseJsonElems fuel rest
      pure (v :: vs, cs2)
    | ']' :: rest => pure ([v], rest)
    | _ => none

/-- Nonempty comma-separated object members up to the closing brace. -/
def parseJsonMembers : ℕ → List Char → Option (List (String × Json) × List Char)
  | 0, _ => none
  | fuel + 1, cs =>
    match skipWsJ cs with
    | '"' :: rest => do
      let (k, cs1) ← parseJsonStr (rest.length + 1) rest
      match skipWsJ cs1 with
      | ':' :: cs2 => do
        let (v, cs3) ← parseJsonVal fuel cs2
        match skipWsJ cs3 with
        | ',' :: cs4 => do
          let (ms, cs5) ← parseJsonMembers fuel cs4
          pure ((⟨k⟩, v) :: ms, cs5)
        | c3 :: cs4 =>
          if c3 = Char.ofNat 125 then pure ([(⟨k⟩, v)], cs4) else none
        | [] => none
      | _ => none
    | _ => none

end

/-- Model of `json.loads` / `json.load`: parse one value, allow surrounding
whitespace, reject trailing data (`None` models a raised
`JSONDecodeError`). -/
def parseJson (s : String) : Option Json :=
  match parseJsonVal (4 * s.data.length + 16) s.data with
  | some (v, rest) => if skipWsJ rest = [] then some v else none
  | none => none

/-- The shared shape of both scripts' `load_status`: read the file (`none`
content = the `open` call raised), `json.load` it, and on any failure return
the literal fresh default `dflt`. -/
def load_statusWith (dflt : Json) (content : Option String) : Json :=
  match content with
  | none => dflt
  | some s =>
    match parseJson s with
    | some v => v
    | none => dflt

/-- Field access on a parsed JSON object (`Python dict` semantics: the last
binding of a duplicated key wins). -/
def jsonField (j : Json) (k : String) : Option Json :=
  match j with
  | .jobj kvs => kvs.reverse.lookup k
  | _ => none

namespace YTT

/-- The fresh default of `youtube_transcriber.py`'s `load_status`. -/
def defaultStatusJson : Json :=
  .jobj [("completed", .jarr []), ("pending", .jarr []),
    ("last_request_time", .jnull), ("batch_count", .jnum 0),
    ("processed_count", .jnum 0)]

/-- `youtube_transcriber.py`'s `load_status()`. -/
def load_status (content : Option String) : Json :=
  load_statusWith defaultStatusJson content

/-- The exact serialization `json.dump` writes for the fresh status (the
default separators are `', '` and `': '`). -/
def freshStatusStr : String :=
  "\x7b\"completed\": [], \"pending\": [], \"last_request_time\": null, \"batch_count\": 0, \"processed_count\": 0\x7d"

/-- A representative prior on-disk status content (one completed video). -/
def priorStatusStr : String :=
  "\x7b\"completed\": [\"abcdefghijk\"], \"pending\": [], \"last_request_time\": null, \"batch_count\": 0, \"processed_count\": 1\x7d"

/-- Model of a crash during `save_status`: `open(STATUS_FILE, 'w')`
truncates the file in place and `json.dump` then writes the serialized
status front to back, so a crash after `k` characters leaves exactly the
first `k` characters of the new content on disk (the prior content is
already gone). -/
def save_status_crash (newContent : String) (k : ℕ) : String :=
  ⟨newContent.data.take k⟩

end YTT

namespace MainPy

/-- The fresh default of `main.py`'s `load_status`. -/
def defaultStatusJson : Json :=
  .jobj [("completed", .jarr []), ("pending", .jarr []),
    ("last_request_time", .jnull)]

/-- `main.py`'s `load_status()`. -/
def load_status (content : Option String) : Json :=
  load_statusWith defaultStatusJson content

end MainPy

/-- A truncated status file, as left by an interrupted write. -/
def corruptStatusStr : String := "\x7b\"completed\": [\"a"

namespace PFV

/-! ## `process_failed_videos.py` : the iteration planner -/
/-- `yt.txt` as a list of (line, extracted id) pairs; URL-to-id pattern
matching is out of scope per the spec, so `get_video_id`'s result on each
line is taken as given (`none` = no id found, the line is ignored). -/
def YtFile := List (String × Option String)

/-- `get_all_original_videos()`: the set of ids of the input file. -/
def originalVideos (f : YtFile) : Finset String :=
  (f.filterMap (fun p => p.2)).toFinset

/-- `video_id_to_url`: maps each id to its original source line; a later
line overwrites an earlier one with the same id. -/
def videoIdToUrl (f : YtFile) (id : String) : Option String :=
  ((f.filterMap (fun p => p.2.map (fun i => (i, p.1)))).reverse).lookup id

/-- `missing_videos = original_videos - downloaded_videos`. -/
def missingVideos (f : YtFile) (downloaded : Finset String) : Finset String :=
  originalVideos f \ downloaded

/-- `videos_to_retry = missing_videos - (no_subtitles ∪ unavailable)`. -/
def videosToRetry (f : YtFile) (downloaded noSubs unavail : Finset String) :
    Finset String :=
  missingVideos f downloaded \ (noSubs ∪ unavail)

/-- The generated report of `create_new_iteration_file` (the `date` and
`new_file` fields carry no verified content and are omitted). -/
structure IterReport where
  original_video_count : ℕ
  downloaded_count : ℕ
  missing_count : ℕ
  retrying_count : ℕ
  skipped_no_subtitles : ℕ
  skipped_unavailable : ℕ
  skipped_failed : ℕ
deriving DecidableEq, Repr

/-- `create_new_iteration_file`: the set of lines written to the new
iteration file (one per retry id that has a source line; iteration order of
the Python set is unspecified, so the file contents are modelled as a set)
together with the report. -/
def create_new_iteration_file (f : YtFile)
    (downloaded noSubs unavail failed : Finset String) :
    Finset String × IterReport :=
  let retry := videosToRetry f downloaded noSubs unavail
  (retry.biUnion (fun id =>
     match videoIdToUrl f id with
     | some u => {u}
     | none => ∅),
   ⟨(originalVideos f).card, downloaded.card, (missingVideos f downloaded).card,
    retry.card, noSubs.card, unavail.card, failed.card⟩)

end PFV

/-- The spec's worked instance: original ids A, B, C, D with their source
lines. -/
def c9File : PFV.YtFile :=
  [("uA", some "A"), ("uB", some "B"), ("uC", some "C"), ("uD", some "D")]

/-- The id alphabet enforced by `get_video_id` for bare identifiers
(`c.isalnum() or c in ['-', '_']`); every ItemId the pipeline stores is made
of these characters (spec 3: an 11-character alphanumeric token).  These
characters need no JSON string escaping, so `json.dump` writes them
verbatim. -/
def idChar (c : Char) : Bool :=
  c.isAlphanum ∨ c = '-' ∨ c = '_'

/-- Decimal digits of a natural number (fuel-based; the fuel in `natDigits`
always suffices), the model of how `json.dump` renders the integer counter
fields. -/
def natDigitsAux : ℕ → ℕ → List Char → List Char
  | 0, _, acc => acc
  | f + 1, n, acc =>
    if n = 0 then acc
    else natDigitsAux f (n / 10) (Char.ofNat (48 + n % 10) :: acc)

/-- Decimal rendering of a natural number. -/
def natDigits (n : ℕ) : List Char :=
  if n = 0 then ['0'] else natDigitsAux (n + 1) n []

/-- Model of `', '.join` at the character level (the separator `json.dump`
puts between array items and object members). -/
def joinCommaChars : List (List Char) → List Char
  | [] => []
  | [x] => x
  | x :: y :: rest => x ++ ',' :: ' ' :: joinCommaChars (y :: rest)

/-- `json.dump` rendering of a string whose characters need no escaping. -/
def dumpStrChars (s : String) : List Char :=
  '"' :: s.data ++ ['"']

/-- `json.dump` rendering of a list of such strings. -/
def dumpStrListChars (l : List String) : List Char :=
  '[' :: joinCommaChars (l.map dumpStrChars) ++ [']']

namespace YTT

/-- The characters strictly between the braces of a serialized status: the
five keys in the dictionary's insertion order with `json.dump`'s default
separators, the id lists, the `last_request_time` value (`null` or the
decimal token `repr` produces for a float, passed in as `lrtTok`), and the
two integer counters. -/
def statusBodyChars (completed pending : List String) (lrtTok : Option (List Char))
    (bc pc : ℕ) : List Char :=
  "\"completed\": ".data ++ dumpStrListChars completed
    ++ ", \"pending\": ".data ++ dumpStrListChars pending
    ++ ", \"last_request_time\": ".data
    ++ (match lrtTok with | none => "null".data | some t => t)
    ++ ", \"batch_count\": ".data ++ natDigits bc
    ++ ", \"processed_count\": ".data ++ natDigits pc

/-- Model of `json.dump(status, f)` for an arbitrary status record: an
opening brace, the body, a closing brace. -/
def dumpStatusChars (completed pending : List String) (lrtTok : Option (List Char))
    (bc pc : ℕ) : List Char :=
  Char.ofNat 123 :: statusBodyChars completed pending lrtTok bc pc ++ [Char.ofNat 125]

/-- The string `save_status` writes for an arbitrary status record. -/
def dump_status (completed pending : List String) (lrtTok : Option (List Char))
    (bc pc : ℕ) : String :=
  ⟨dumpStatusChars completed pending lrtTok bc pc⟩

end YTT

/-! ## Theorems -/

theorem dropWhile_dropWhile (p : α → Bool) (l : List α) :
    (l.dropWhile p).dropWhile p = l.dropWhile p := by
  induction l with
  | nil => rfl
  | cons a t ih =>
    by_cases h : p a
    · simp [List.dropWhile, h, ih]
    · simp [List.dropWhile, h]

theorem dropWhile_head_false (p : α → Bool) (l : List α) (a : α)
    (h : (l.dropWhile p).head? = some a) : p a = false := by
  induction l with
  | nil => simp [List.dropWhile] at h
  | cons b t ih =>
    by_cases hb : p b
    · simp only [List.dropWhile, hb] at h
      exact ih h
    · simp only [List.dropWhile, hb] at h
      simp only [List.head?] at h
      cases h
      simpa using hb

theorem dropWhile_eq_self_of_head (p : α → Bool) (l : List α)
    (h : ∀ a, l.head? = some a → p a = false) : l.dropWhile p = l := by
  cases l with
  | nil => rfl
  | cons a t =>
    have := h a rfl
    simp [List.dropWhile, this]

theorem dropWhile_getLast?_eq (p : α → Bool) (l : List α) (a : α)
    (h : (l.dropWhile p).getLast? = some a) : l.getLast? = some a := by
  induction l with
  | nil => simp [List.dropWhile] at h
  | cons b t ih =>
    by_cases hb : p b
    · simp only [List.dropWhile, hb] at h
      have ht := ih h
      cases t with
      | nil => simp [List.dropWhile] at h
      | cons c u => simpa [List.getLast?_cons_cons] using ht
    · simpa [List.dropWhile, hb] using h

/-- `stripChars` is idempotent. -/
theorem stripChars_idem (l : List Char) : stripChars (stripChars l) = stripChars l := by
  unfold stripChars
  set A := l.dropWhile isPyWS with hA
  set B := A.reverse.dropWhile isPyWS with hB
  -- step 1: (B.reverse).dropWhile isPyWS = B.reverse
  have hhead : ∀ a, B.reverse.head? = some a → isPyWS a = false := by
    intro a ha
    rw [List.head?_reverse] at ha
    -- a is the last element of B; B is a suffix (by dropWhile) of A.reverse,
    -- so B's last element is A.reverse's last element, i.e. A's head.
    have hAlast : A.reverse.getLast? = some a := dropWhile_getLast?_eq _ _ _ (hB ▸ ha)
    rw [List.getLast?_reverse] at hAlast
    exact dropWhile_head_false isPyWS l a (hA ▸ hAlast)
  rw [dropWhile_eq_self_of_head _ _ hhead, List.reverse_reverse]
  suffices hsuf : B.dropWhile isPyWS = B by rw [hsuf]
  rw [hB]
  exact dropWhile_dropWhile _ _

/-- `pyStrip` is idempotent. -/
theorem pyStrip_idem (s : String) : pyStrip (pyStrip s) = pyStrip s := by
  unfold pyStrip
  exact congrArg String.mk (stripChars_idem s.data)

theorem dedupAux_sublist (l : List Span) (seen : List (Frac × String)) :
    List.Sublist (dedupAux l seen) l := by
  induction l generalizing seen with
  | nil => simp [dedupAux]
  | cons e rest ih =>
    by_cases h : e.key ∈ seen
    · simp only [dedupAux, if_pos h]
      exact (ih seen).trans (List.sublist_cons_self e rest)
    · simp only [dedupAux, if_neg h]
      exact (ih (e.key :: seen)).cons₂ e

theorem dedupAux_mem_spec (l : List Span) (seen : List (Frac × String)) (e : Span)
    (h : e ∈ dedupAux l seen) :
    e.key ∉ seen ∧ l.find? (fun x => x.key = e.key) = some e := by
  induction l generalizing seen with
  | nil => simp [dedupAux] at h
  | cons a rest ih =>
    by_cases ha : a.key ∈ seen
    · simp only [dedupAux, if_pos ha] at h
      obtain ⟨hns, hfind⟩ := ih seen h
      have hne : a.key ≠ e.key := fun hk => hns (hk ▸ ha)
      refine ⟨hns, ?_⟩
      rw [List.find?_cons_of_neg, hfind]
      simpa using hne
    · simp only [dedupAux, if_neg ha] at h
      rcases List.mem_cons.mp h with h | h
      · subst h
        exact ⟨ha, by rw [List.find?_cons_of_pos]; simp⟩
      · obtain ⟨hns, hfind⟩ := ih (a.key :: seen) h
        have hne : a.key ≠ e.key := by
          intro hk
          exact hns (by simp [hk])
        refine ⟨fun hc => hns (by simp [hc]), ?_⟩
        rw [List.find?_cons_of_neg, hfind]
        simpa using hne

theorem dedupAux_keys_nodup (l : List Span) (seen : List (Frac × String)) :
    ((dedupAux l seen).map Span.key).Nodup ∧
      ∀ e ∈ dedupAux l seen, e.key ∉ seen := by
  induction l generalizing seen with
  | nil => simp [dedupAux]
  | cons a rest ih =>
    by_cases ha : a.key ∈ seen
    · simp only [dedupAux, if_pos ha]
      exact ih seen
    · simp only [dedupAux, if_neg ha]
      obtain ⟨hnd, hmem⟩ := ih (a.key :: seen)
      constructor
      · simp only [List.map_cons, List.nodup_cons]
        refine ⟨?_, hnd⟩
        intro hc
        obtain ⟨e, he, hk⟩ := List.mem_map.mp hc
        exact hmem e he (by simp [hk])
      · intro e he
        rcases List.mem_cons.mp he with he | he
        · subst he; exact ha
        · intro hc
          exact hmem e he (by simp [hc])

theorem dedupAux_complete (l : List Span) (seen : List (Frac × String)) (e : Span)
    (he : e ∈ l) (hs : e.key ∉ seen) :
    e.key ∈ (dedupAux l seen).map Span.key := by
  induction l generalizing seen with
  | nil => simp at he
  | cons a rest ih =>
    by_cases ha : a.key ∈ seen
    · simp only [dedupAux, if_pos ha]
      rcases List.mem_cons.mp he with he | he
      · exact absurd (he ▸ ha) hs
      · exact ih seen he hs
    · simp only [dedupAux, if_neg ha]
      rcases List.mem_cons.mp he with he | he
      · subst he; simp
      · by_cases hk : e.key = a.key
        · simp [hk]
        · have := ih (a.key :: seen) he (by simp [hs, hk])
          simp only [List.map_cons, List.mem_cons]
          exact Or.inr this

example : pyStrip "  hello \t" = "hello" := by decide

example : pyFloat "00" = some 0 := by decide

example : pyFloat " 12.50 " = some (25 / 2) := by decide

example : pyFloat "garbage" = none := by decide

example : YTT.srt_time_to_seconds "00:00:01,000" = 1 := by decide

example : YTT.srt_time_to_seconds "01:02" = 62 := by decide

example : YTT.srt_time_to_seconds "junk" = 0 := by decide

example :
    YTT.srtParse ["garbage --> junk", "hello"] = [⟨"hello", 0, 0⟩] := by decide

example :
    YTT.srtParse ["00:00:01,000 --> 00:00:02,500", "hello"]
      = [⟨"hello", 1, 3 / 2⟩] := by decide

theorem xmlElemSpan_goodText (a : YTT.XmlElem) (e : Span)
    (h : YTT.xmlElemSpan a = some e) : GoodText e := by
  unfold YTT.xmlElemSpan at h
  cases hs : a.start with
  | none => simp [hs] at h
  | some sv =>
    rw [hs] at h
    simp only [Option.bind_eq_bind, Option.some_bind] at h
    cases hf : pyFloat sv with
    | none => rw [hf] at h; simp at h
    | some st =>
      rw [hf] at h
      simp only [Option.some_bind] at h
      cases hdur : a.dur with
      | none =>
        rw [hdur] at h
        simp only at h
        by_cases hc : pyStrip a.content ≠ ""
        · rw [if_pos hc] at h
          cases h
          exact ⟨hc, pyStrip_idem _⟩
        · rw [if_neg hc] at h
          simp at h
      | some dv =>
        rw [hdur] at h
        simp only at h
        cases hf2 : pyFloat dv with
        | none => rw [hf2] at h; simp at h
        | some d =>
          rw [hf2] at h
          simp only [Option.some_bind] at h
          by_cases hc : pyStrip a.content ≠ ""
          · rw [if_pos hc] at h
            cases h
            exact ⟨hc, pyStrip_idem _⟩
          · rw [if_neg hc] at h
            simp at h

theorem jsonEventSpan_goodText (ev : YTT.JEvent) (e : Span)
    (h : YTT.jsonEventSpan ev = some e) : GoodText e := by
  unfold YTT.jsonEventSpan at h
  cases hs : ev.segs with
  | none => rw [hs] at h; simp at h
  | some l =>
    cases l with
    | nil => rw [hs] at h; simp at h
    | cons s0 ss =>
      rw [hs] at h
      simp only at h
      by_cases hc : pyStrip (joinSpace ((s0 :: ss).map (fun sg => sg.utf8.getD ""))) ≠ ""
      · rw [if_pos hc] at h
        cases h
        exact ⟨hc, pyStrip_idem _⟩
      · rw [if_neg hc] at h
        simp at h

theorem srtParse_goodText : ∀ (lines : List String) (e : Span),
    e ∈ YTT.srtParse lines → GoodText e
  | [], e, he => by simp [YTT.srtParse] at he
  | [l], e, he => by simp [YTT.srtParse] at he
  | l :: c :: rest, e, he => by
    by_cases hl : strIn "-->" l = true
    · simp only [YTT.srtParse] at he
      rw [if_pos hl] at he
      rcases List.mem_append.mp he with h1 | h2
      · by_cases hc : pyStrip c ≠ ""
        · rw [if_pos hc] at h1
          rcases List.mem_singleton.mp h1 with rfl
          exact ⟨hc, pyStrip_idem _⟩
        · rw [if_neg hc] at h1
          simp at h1
      · exact srtParse_goodText rest e h2
    · simp only [YTT.srtParse] at he
      rw [if_neg hl] at he
      exact srtParse_goodText (c :: rest) e he

theorem rawSpansE_goodText (p : YTT.SubData) (subs : List Span)
    (h : YTT.rawSpansE p = .ok subs) (e : Span) (he : e ∈ subs) : GoodText e := by
  unfold YTT.rawSpansE at h
  split at h
  · cases h
    obtain ⟨a, _, ha⟩ := List.mem_filterMap.mp he
    exact xmlElemSpan_goodText a e ha
  · split at h
    · cases hj : p.jsonData <;> rw [hj] at h
      · cases h; simp at he
      · cases h
      · cases h
        obtain ⟨ev, _, hev⟩ := List.mem_filterMap.mp he
        exact jsonEventSpan_goodText ev e hev
    · split at h
      · cases h
        exact srtParse_goodText _ e he
      · cases h; simp at he

theorem parse_subtitles_ok_elim (p : YTT.SubData) (res : List Span)
    (h : YTT.parse_subtitles p = .ok res) :
    ∃ subs, YTT.rawSpansE p = .ok subs ∧ subs ≠ [] ∧ res = dedupSpans subs := by
  unfold YTT.parse_subtitles at h
  cases hr : YTT.rawSpansE p with
  | error err => rw [hr] at h; simp [Bind.bind, Except.bind] at h
  | ok subs =>
    rw [hr] at h
    simp only [Bind.bind, Except.bind] at h
    by_cases hne : subs.isEmpty
    · rw [if_pos hne] at h
      simp [throw, throwThe, MonadExceptOf.throw] at h
    · rw [if_neg hne] at h
      simp only [pure, Except.pure, Except.ok.injEq] at h
      exact ⟨subs, rfl, fun hnil => hne (by simp [hnil]), h.symm⟩

theorem saveIndividualAux_props (tr : List Span) (prev : Option String) :
    List.Chain' (fun a b : Frac × String => a.2 ≠ b.2) (YTT.saveIndividualAux tr prev) ∧
    (∀ x ∈ YTT.saveIndividualAux tr prev, pyStrip x.2 = x.2) ∧
    (∀ x, (YTT.saveIndividualAux tr prev).head? = some x → prev ≠ some x.2) := by
  induction tr generalizing prev with
  | nil => simp [YTT.saveIndividualAux]
  | cons e rest ih =>
    by_cases hp : prev ≠ some (pyStrip e.text)
    · rw [YTT.saveIndividualAux, if_pos hp]
      obtain ⟨ihc, ihs, ihh⟩ := ih (some (pyStrip e.text))
      refine ⟨?_, ?_, ?_⟩
      · rw [List.chain'_cons']
        refine ⟨?_, ihc⟩
        intro b hb
        have := ihh b hb
        intro hb2
        exact this (congrArg some hb2)
      · intro x hx
        rcases List.mem_cons.mp hx with rfl | hx
        · exact pyStrip_idem _
        · exact ihs x hx
      · intro x hx
        simp only [List.head?] at hx
        cases hx
        exact hp
    · rw [YTT.saveIndividualAux, if_neg hp]
      exact ih prev

/-- **C6.** For every raw payload on which `parse_subtitles` succeeds, the
returned sequence contains no entry whose trimmed text is empty and no two
entries sharing the same exact `(start, text)` pair; the deduplication pass
keeps the first occurrence of each pair (each returned entry is the first
parsed entry with its key) and otherwise preserves the order of the parsed
entries (the result is a sublist of the parsed list, and every parsed key
survives). -/
theorem c6_parse_subtitles_dedup (p : YTT.SubData) (res : List Span)
    (h : YTT.parse_subtitles p = .ok res) :
    (∀ e ∈ res, pyStrip e.text ≠ "") ∧
    (res.map Span.key).Nodup ∧
    ∀ subs, YTT.rawSpansE p = .ok subs →
      List.Sublist res subs ∧
      (∀ e ∈ res, subs.find? (fun x => x.key = e.key) = some e) ∧
      (∀ e ∈ subs, e.key ∈ res.map Span.key) := by
  obtain ⟨subs, hr, hne, hres⟩ := parse_subtitles_ok_elim p res h
  subst hres
  rw [dedupSpans] at *
  refine ⟨?_, ?_, ?_⟩
  · intro e he
    have hsub : e ∈ subs := (dedupAux_sublist subs []).subset he
    obtain ⟨h1, h2⟩ := rawSpansE_goodText p subs hr e hsub
    rw [h2]
    exact h1
  · exact (dedupAux_keys_nodup subs []).1
  · intro subs' hr'
    rw [hr] at hr'
    simp only [Except.ok.injEq] at hr'
    subst hr'
    refine ⟨dedupAux_sublist subs [], ?_, ?_⟩
    · intro e he
      exact (dedupAux_mem_spec subs [] e he).2
    · intro e he
      exact dedupAux_complete subs [] e he (by simp)

/-- Witness for C6: on `c6Payload` the parse succeeds, the duplicate block is
removed, and the guarantees hold. -/
theorem c6_witness :
    YTT.parse_subtitles c6Payload = .ok [⟨"hello", 1, 3 / 2⟩] ∧
    ∀ e ∈ [(⟨"hello", 1, 3 / 2⟩ : Span)], pyStrip e.text ≠ "" :=
  ⟨by decide, fun e he =>
    (c6_parse_subtitles_dedup c6Payload [⟨"hello", 1, 3 / 2⟩] (by decide)).1 e he⟩

theorem chain'_strip_of (l : List (Frac × String))
    (hs : ∀ x ∈ l, pyStrip x.2 = x.2)
    (hc : List.Chain' (fun a b => a.2 ≠ b.2) l) :
    List.Chain' (fun a b => pyStrip a.2 ≠ pyStrip b.2) l := by
  induction l with
  | nil => simp
  | cons a t ih =>
    rw [List.chain'_cons'] at hc ⊢
    obtain ⟨h1, h2⟩ := hc
    refine ⟨?_, ih (fun x hx => hs x (List.mem_cons_of_mem a hx)) h2⟩
    intro b hb
    rw [hs a (by simp), hs b (List.mem_cons_of_mem a (List.mem_of_mem_head? hb))]
    exact h1 b hb

/-- **C7 (amended).** The timestamped per-item writer
`save_individual_transcript` applies consecutive-duplicate collapse: no two
consecutively written lines carry identical trimmed caption text (each
written text is already stripped, and consecutive written texts differ).
The plain-lines writer `save_transcript_to_file` of `main.py` applies no
collapse (see the counterexample). -/
theorem c7_save_individual_collapse (tr : List Span) :
    List.Chain' (fun a b => pyStrip a.2 ≠ pyStrip b.2)
      (YTT.save_individual_transcript tr) ∧
    ∀ x ∈ YTT.save_individual_transcript tr, pyStrip x.2 = x.2 := by
  obtain ⟨hc, hs, _⟩ := saveIndividualAux_props tr none
  exact ⟨chain'_strip_of _ hs hc, hs⟩

/-- **C7 counterexample.** The plain-lines form written by `main.py`'s
`save_transcript_to_file` does not collapse consecutive duplicates: a
transcript with two consecutive entries of identical text (at different
start times, so it survives identity dedup) is written as two identical
consecutive lines. -/
theorem c7_counterexample :
    MainPy.save_transcript_to_file [⟨"dup", 0, 1⟩, ⟨"dup", 2, 1⟩] = ["dup", "dup"] ∧
    ¬ List.Chain' (fun a b : String => pyStrip a ≠ pyStrip b) ["dup", "dup"] := by
  refine ⟨by decide, ?_⟩
  intro hch
  rw [List.chain'_cons] at hch
  exact hch.1 rfl

theorem enforce_rate_limit_fields (st : YTT.YStatus) (now j : Frac) :
    (YTT.enforce_rate_limit st now j).1.completed = st.completed ∧
    (YTT.enforce_rate_limit st now j).1.pending = st.pending ∧
    (YTT.enforce_rate_limit st now j).1.processed_count = st.processed_count := by
  unfold YTT.enforce_rate_limit
  cases st.last_request_time with
  | none => simp
  | some l =>
    by_cases h : l = 0
    · simp [h]
    · simp [h]

theorem extract_transcript_state (w : YTT.World) (inp : YTT.PVInput) :
    ((YTT.extract_transcript w inp).1.disk.completed = w.disk.completed ∧
     (YTT.extract_transcript w inp).1.disk.pending = w.disk.pending ∧
     (YTT.extract_transcript w inp).1.disk.processed_count = w.disk.processed_count) ∧
    ((YTT.extract_transcript w inp).1.saved = w.saved ∨
     (YTT.extract_transcript w inp).1.saved =
       w.saved ++ [(YTT.enforce_rate_limit w.disk w.now inp.jitter).1]) := by
  obtain ⟨h1, h2, h3⟩ := enforce_rate_limit_fields w.disk w.now inp.jitter
  unfold YTT.extract_transcript
  by_cases hf : inp.vid ∈ w.failedFile
  · rw [if_pos hf]
    simp
  · rw [if_neg hf]
    cases inp.fetch with
    | none => exact ⟨⟨h1, h2, h3⟩, Or.inr rfl⟩
    | some tr =>
      by_cases he : tr.isEmpty
      · simp only [he, if_pos]
        exact ⟨⟨h1, h2, h3⟩, Or.inr rfl⟩
      · simp only [he]
        exact ⟨⟨h1, h2, h3⟩, Or.inr rfl⟩

theorem disj_of_fields {a b : YTT.YStatus}
    (hc : a.completed = b.completed) (hp : a.pending = b.pending)
    (h : YTT.Disj b) : YTT.Disj a := by
  intro x hx
  rw [hp]
  exact h x (hc ▸ hx)

theorem save_status_saved_disj (w2 : YTT.World) (stX : YTT.YStatus)
    (hw2 : ∀ s ∈ w2.saved, YTT.Disj s) (hX : YTT.Disj stX) :
    ∀ s ∈ (YTT.save_status w2 stX).saved, YTT.Disj s := by
  intro s hs
  have hs' : s ∈ w2.saved ++ [stX] := hs
  rcases List.mem_append.mp hs' with h1 | h2
  · exact hw2 s h1
  · rw [List.mem_singleton] at h2
    subst h2
    exact hX

/-- **C2.** After every mutation of the persisted job status performed by
`process_video` (marking an id pending, the save inside the rate limiter,
clearing pending on failure, marking completed on success), the completed
list and the pending list are disjoint — assuming the status read at entry
satisfies the invariant (disjoint, no duplicate pending entries), which the
initial empty status does; the invariant is re-established for the final
persisted status, so it propagates across calls. -/
theorem c2_process_video_disjoint (w : YTT.World) (inp : YTT.PVInput)
    (hsaved : ∀ s ∈ w.saved, YTT.Disj s) (hinv : YTT.StInv w.disk) :
    (∀ s ∈ (YTT.process_video w inp).1.saved, YTT.Disj s) ∧
    YTT.StInv (YTT.process_video w inp).1.disk := by
  obtain ⟨hdisj, hnd⟩ := hinv
  by_cases hc : inp.vid ∈ w.disk.completed
  · simp only [YTT.process_video, if_pos hc]
    exact ⟨hsaved, hdisj, hnd⟩
  · -- facts about the pending-marked status, for both pending cases
    have hPdisj2 : YTT.Disj {w.disk with pending := w.disk.pending ++ [inp.vid]} := by
      intro x hx
      simp only [List.mem_append, List.mem_singleton]
      rintro (h1 | rfl)
      · exact hdisj x hx h1
      · exact hc hx
    by_cases hp : inp.vid ∈ w.disk.pending
    · -- already pending: no initial save, stP = w.disk, w1 = w
      have hext := extract_transcript_state w inp
      cases hx : YTT.extract_transcript w inp with
      | mk w2 r =>
        rw [hx] at hext
        obtain ⟨⟨he1, he2, he3⟩, hesaved⟩ := hext
        have hw2saved : ∀ s ∈ w2.saved, YTT.Disj s := by
          rcases hesaved with h | h
          · intro s hs
            exact hsaved s (by rw [← h]; exact hs)
          · intro s hs
            have hs' : s ∈ w.saved ++ [(YTT.enforce_rate_limit w.disk w.now inp.jitter).1] := by
              rw [← h]; exact hs
            rcases List.mem_append.mp hs' with h1 | h2
            · exact hsaved s h1
            · rw [List.mem_singleton] at h2
              subst h2
              obtain ⟨f1, f2, _⟩ := enforce_rate_limit_fields w.disk w.now inp.jitter
              exact disj_of_fields f1 f2 hdisj
        have hFdisj : YTT.Disj {w.disk with pending := w.disk.pending.erase inp.vid} := by
          intro x hx2 hmem
          exact hdisj x hx2 (List.mem_of_mem_erase hmem)
        have hSdisj : YTT.Disj
            {w.disk with
              completed := w.disk.completed ++ [inp.vid],
              processed_count := w.disk.processed_count + 1,
              pending := w.disk.pending.erase inp.vid} := by
          intro x hx2
          simp only [List.mem_append, List.mem_singleton] at hx2
          simp only []
          rcases hx2 with h1 | rfl
          · intro hmem
            exact hdisj x h1 (List.mem_of_mem_erase hmem)
          · exact hnd.not_mem_erase
        simp only [YTT.process_video, if_neg hc, if_pos hp, hx]
        cases r with
        | none =>
          exact ⟨save_status_saved_disj w2 _ hw2saved hFdisj, hFdisj, hnd.erase _⟩
        | some tr =>
          simp only []
          split
          · exact ⟨save_status_saved_disj w2 _ hw2saved hSdisj, hSdisj, hnd.erase _⟩
          · exact ⟨save_status_saved_disj w2 _ hw2saved hSdisj, hSdisj, hnd.erase _⟩
    · -- not yet pending: initial save of the pending-marked status
      have hPnd2 : ({w.disk with pending := w.disk.pending ++ [inp.vid]} :
          YTT.YStatus).pending.Nodup := by
        simp only []
        exact List.Nodup.append hnd (List.nodup_singleton _) (by
          intro x hx2 hy
          rw [List.mem_singleton] at hy
          subst hy
          exact hp hx2)
      have hw1saved : ∀ s ∈ (YTT.save_status w
          {w.disk with pending := w.disk.pending ++ [inp.vid]}).saved, YTT.Disj s :=
        save_status_saved_disj w _ hsaved hPdisj2
      have hext := extract_transcript_state
        (YTT.save_status w {w.disk with pending := w.disk.pending ++ [inp.vid]}) inp
      cases hx : YTT.extract_transcript
          (YTT.save_status w {w.disk with pending := w.disk.pending ++ [inp.vid]}) inp with
      | mk w2 r =>
        rw [hx] at hext
        obtain ⟨⟨he1, he2, he3⟩, hesaved⟩ := hext
        have hw2saved : ∀ s ∈ w2.saved, YTT.Disj s := by
          rcases hesaved with h | h
          · intro s hs
            exact hw1saved s (by rw [← h]; exact hs)
          · intro s hs
            have hs' : s ∈ (YTT.save_status w
                {w.disk with pending := w.disk.pending ++ [inp.vid]}).saved ++
                [(YTT.enforce_rate_limit
                  (YTT.save_status w
                    {w.disk with pending := w.disk.pending ++ [inp.vid]}).disk
                  (YTT.save_status w
                    {w.disk with pending := w.disk.pending ++ [inp.vid]}).now
                  inp.jitter).1] := by
              rw [← h]; exact hs
            rcases List.mem_append.mp hs' with h1 | h2
            · exact hw1saved s h1
            · rw [List.mem_singleton] at h2
              subst h2
              obtain ⟨f1, f2, _⟩ := enforce_rate_limit_fields
                (YTT.save_status w
                  {w.disk with pending := w.disk.pending ++ [inp.vid]}).disk
                (YTT.save_status w
                  {w.disk with pending := w.disk.pending ++ [inp.vid]}).now
                inp.jitter
              exact disj_of_fields f1 f2 hPdisj2
        have hFdisj : YTT.Disj
            {w.disk with pending := (w.disk.pending ++ [inp.vid]).erase inp.vid} := by
          intro x hx2 hmem
          exact hPdisj2 x hx2 (List.mem_of_mem_erase hmem)
        have hSdisj : YTT.Disj
            {w.disk with
              completed := w.disk.completed ++ [inp.vid],
              processed_count := w.disk.processed_count + 1,
              pending := (w.disk.pending ++ [inp.vid]).erase inp.vid} := by
          intro x hx2
          simp only [List.mem_append, List.mem_singleton] at hx2
          simp only []
          rcases hx2 with h1 | rfl
          · intro hmem
            exact hPdisj2 x h1 (List.mem_of_mem_erase hmem)
          · exact hPnd2.not_mem_erase
        simp only [YTT.process_video, if_neg hc, if_neg hp, hx]
        cases r with
        | none =>
          exact ⟨save_status_saved_disj w2 _ hw2saved hFdisj, hFdisj, hPnd2.erase _⟩
        | some tr =>
          simp only []
          split
          · exact ⟨save_status_saved_disj w2 _ hw2saved hSdisj, hSdisj, hPnd2.erase _⟩
          · exact ⟨save_status_saved_disj w2 _ hw2saved hSdisj, hSdisj, hPnd2.erase _⟩

/-- Witness for C2: a concrete call from the fresh empty status. -/
theorem c2_witness :
    (∀ s ∈ (YTT.process_video c2World c2Inp).1.saved, YTT.Disj s) ∧
    YTT.StInv (YTT.process_video c2World c2Inp).1.disk :=
  c2_process_video_disjoint c2World c2Inp
    (fun s hs => absurd hs (List.not_mem_nil s))
    ⟨fun x hx => absurd hx (List.not_mem_nil x), List.nodup_nil⟩

/-- **C1** (evaluation of the code at the failing input).  Processing two
videos sequentially from `c1World`: the first acquisition is at time 170
(delay 70 = BASE_DELAY + 10 over the last-request value 100), and the final
`save_status` of `process_video` then writes back the status loaded before
the fetch, restoring `last_request_time = 100` (third conjunct).  The second
acquisition therefore also reads the stale value 100 — both acquisitions
compute their delay from the same last-request value — and computes delay
150 = 2 * BASE_DELAY + 30 (processed count 10), but the wall-clock gap
between the two permitted requests is 250 − 170 = 80 < 150. -/
theorem c1_gap_violation :
    (YTT.process_video (YTT.process_video c1World c1InpA).1 c1InpB).1.acquisitions
      = [(170, 100, 70), (250, 100, 150)] ∧
    ((250 : Frac) - 170 < 150) ∧
    (YTT.process_video c1World c1InpA).1.disk.last_request_time = some 100 := by
  refine ⟨by decide, by decide, by decide⟩

/-- **C5.** For every video id already present in the permanent-failure
file, both variants of `extract_transcript` return immediately with no
result: the world is completely unchanged in `youtube_transcriber.py` (no
fetch, no rate-limit acquisition, no status save) and in `main.py` no fetch
and no status save happen and the failure file is unchanged.  The guard
re-reads the persisted failure file on every call, so it applies on the very
first call of a fresh process. -/
theorem c5_failed_short_circuit (w : YTT.World) (inp : YTT.PVInput)
    (ff : List String) (vid : String) (outcomes : List MainPy.MOutcome)
    (h1 : inp.vid ∈ w.failedFile) (h2 : vid ∈ ff) :
    YTT.extract_transcript w inp = (w, none) ∧
    MainPy.extract_transcript ff vid outcomes = ⟨none, ff, 0, 0⟩ := by
  constructor
  · unfold YTT.extract_transcript
    rw [if_pos h1]
  · unfold MainPy.extract_transcript
    rw [if_pos h2]

/-- Witness for C5. -/
theorem c5_witness :
    YTT.extract_transcript c5World c5Inp = (c5World, none) ∧
    MainPy.extract_transcript ["v"] "v" [] = ⟨none, ["v"], 0, 0⟩ :=
  c5_failed_short_circuit c5World c5Inp ["v"] "v" [] (by decide) (by decide)

theorem extractLoop_429 (vid : String) : ∀ (n : ℕ) (ff : List String) (fc sv : ℕ),
    MainPy.extractLoop vid (List.replicate n MainPy.MOutcome.http429) ff fc sv
      = ⟨none, ff, fc + n, sv + n⟩
  | 0, ff, fc, sv => by simp [MainPy.extractLoop]
  | n + 1, ff, fc, sv => by
    simp only [List.replicate_succ, MainPy.extractLoop]
    rw [extractLoop_429 vid n ff (fc + 1) (sv + 1)]
    simp only [MainPy.ExtractRes.mk.injEq, true_and]
    omega

/-- **C4** (evaluation of the code at the failing input).  In `main.py`, an
item whose every attempt fails with the retryable HTTP 429 rate-limit signal
exhausts the configured budget (`MAX_RETRIES = 1`, and in fact any budget
`n`) yet is never appended to the failed-videos file, so it is not recorded
as permanently failed and will pass the permanent-failure filter of a later
run.  By contrast, a generic transient error on the final attempt is
appended, as the claim requires. -/
theorem c4_429_exhaustion_unrecorded :
    MainPy.extract_transcript [] "vid"
        (List.replicate MainPy.MAX_RETRIES MainPy.MOutcome.http429)
      = ⟨none, [], 1, 1⟩ ∧
    (∀ n : ℕ, MainPy.extract_transcript [] "vid"
        (List.replicate n MainPy.MOutcome.http429) = ⟨none, [], n, n⟩) ∧
    MainPy.extract_transcript [] "vid"
        (List.replicate MainPy.MAX_RETRIES MainPy.MOutcome.otherExc)
      = ⟨none, ["vid"], 1, 1⟩ := by
  refine ⟨by decide, ?_, by decide⟩
  intro n
  unfold MainPy.extract_transcript
  rw [if_neg (List.not_mem_nil "vid")]
  simpa using extractLoop_429 "vid" n [] 0 0

/-- **C8 counterexample.** On the payload `"garbage --> junk\nhello"` the
code does not skip the malformed timecode line: `srt_time_to_seconds`
swallows the parse failure and returns 0 for both times, so the block
consumes two lines and produces the entry `("hello", 0, 0)`; under the
spec's reading (skip the malformed line by advancing one line,
`srtParseSpec`) this payload yields no entries at all, so the whole parse
would report the no-valid-subtitles error. -/
theorem c8_counterexample :
    YTT.parse_subtitles ⟨"garbage --> junk\nhello", [], .decodeErr⟩
      = .ok [⟨"hello", 0, 0⟩] ∧
    YTT.srtParseSpec (YTT.srtLines "garbage --> junk\nhello") = [] := by
  refine ⟨by decide, by decide⟩

/-- **C8 (amended).** A timecode line never aborts the SRT parse: a
well-formed block contributes its entry with `duration = end − start` and
the parse of the remaining lines continues unchanged; but a block whose
timecode line is malformed (both times unparsable) is not skipped by
advancing one line — `srt_time_to_seconds` returns 0 for each unparsable
time, the block still consumes two lines, and (when the following line is
nonempty) it contributes an entry with start 0 and duration 0. -/
theorem c8_amended :
    (∀ (l t0 t1 : String) (s e : Frac) (c : String) (rest : List String),
        strIn "-->" l = true →
        pySplitOn "-->" l = [t0, t1] →
        YTT.srt_time_to_secondsE (pyStrip t0) = some s →
        YTT.srt_time_to_secondsE (pyStrip t1) = some e →
        YTT.srtParse (l :: c :: rest)
          = (if pyStrip c ≠ "" then [⟨pyStrip c, s, e - s⟩] else [])
            ++ YTT.srtParse rest) ∧
    (∀ (l t0 t1 c : String) (rest : List String),
        strIn "-->" l = true →
        pySplitOn "-->" l = [t0, t1] →
        YTT.srt_time_to_secondsE (pyStrip t0) = none →
        YTT.srt_time_to_secondsE (pyStrip t1) = none →
        YTT.srtParse (l :: c :: rest)
          = (if pyStrip c ≠ "" then [⟨pyStrip c, 0, 0⟩] else [])
            ++ YTT.srtParse rest) := by
  constructor
  · intro l t0 t1 s e c rest h1 h2 h3 h4
    simp only [YTT.srtParse]
    rw [if_pos h1, h2]
    simp only [List.headD_cons, List.getD_cons_succ, List.getD_cons_zero]
    unfold YTT.srt_time_to_seconds
    rw [h3, h4]
    simp only [Option.getD_some]
  · intro l t0 t1 c rest h1 h2 h3 h4
    simp only [YTT.srtParse]
    rw [if_pos h1, h2]
    simp only [List.headD_cons, List.getD_cons_succ, List.getD_cons_zero]
    unfold YTT.srt_time_to_seconds
    rw [h3, h4]
    simp only [Option.getD_none]
    have h00 : (0 : Frac) - 0 = 0 := by decide
    rw [h00]

/-- Witness for C8 (amended): a well-formed block yields its timed entry, a
malformed one yields the zero-timed entry. -/
theorem c8_witness :
    YTT.srtParse ["1 --> 2", "ok"] = [⟨"ok", 1, 1⟩] ∧
    YTT.srtParse ["x --> y", "hello"] = [⟨"hello", 0, 0⟩] := by
  constructor
  · rw [c8_amended.1 "1 --> 2" "1 " " 2" 1 2 "ok" []
      (by decide) (by decide) (by decide) (by decide)]
    decide
  · rw [c8_amended.2 "x --> y" "x " " y" "hello" []
      (by decide) (by decide) (by decide) (by decide)]
    decide

theorem load_statusWith_of_parse_fail (dflt : Json) (s : String)
    (h : parseJson s = none) : load_statusWith dflt (some s) = dflt := by
  unfold load_statusWith
  simp only []
  rw [h]

/-- **C10.** `load_status` is total: a missing file or any unparseable
content (empty, truncated, or otherwise non-JSON) yields the literal fresh
default — whose `completed` and `pending` fields are empty lists — in both
scripts; so progress recorded in a corrupt status file is silently discarded
and those items are treated as never attempted. -/
theorem c10_load_status_total :
    (YTT.load_status none = YTT.defaultStatusJson ∧
     MainPy.load_status none = MainPy.defaultStatusJson) ∧
    (∀ s : String, parseJson s = none →
      YTT.load_status (some s) = YTT.defaultStatusJson ∧
      MainPy.load_status (some s) = MainPy.defaultStatusJson) ∧
    (jsonField YTT.defaultStatusJson "completed" = some (.jarr []) ∧
     jsonField YTT.defaultStatusJson "pending" = some (.jarr []) ∧
     jsonField MainPy.defaultStatusJson "completed" = some (.jarr []) ∧
     jsonField MainPy.defaultStatusJson "pending" = some (.jarr [])) := by
  refine ⟨⟨rfl, rfl⟩, ?_, by rfl, by rfl, by rfl, by rfl⟩
  intro s h
  exact ⟨load_statusWith_of_parse_fail _ s h, load_statusWith_of_parse_fail _ s h⟩

/-- Witness for C10: the truncated content fails to parse and both
`load_status` variants return their fresh default on it. -/
theorem c10_witness :
    parseJson corruptStatusStr = none ∧
    YTT.load_status (some corruptStatusStr) = YTT.defaultStatusJson ∧
    MainPy.load_status (some corruptStatusStr) = MainPy.defaultStatusJson :=
  ⟨by rfl, (c10_load_status_total.2.1 corruptStatusStr (by rfl)).1,
    (c10_load_status_total.2.1 corruptStatusStr (by rfl)).2⟩

/-- **C3 counterexample.** A crash at the very start of a save (after the
open-for-write truncation, before any bytes of the new status are written)
leaves on-disk content — the empty file — that is neither the prior state
nor the new status: `save_status` is not atomic. -/
theorem c3_counterexample :
    ¬ (YTT.save_status_crash YTT.freshStatusStr 0 = YTT.priorStatusStr ∨
       YTT.save_status_crash YTT.freshStatusStr 0 = YTT.freshStatusStr) := by
  decide

/-- **C9.** `create_new_iteration_file` computes
`missing = original − downloaded`, `skip = no-subtitles ∪ unavailable` and
`retryBatch = missing − skip` (equivalently the spec's
`missing − (missing ∩ skip)`); it writes each retry id's original source
line to the new iteration file and reports the original, downloaded,
missing, retrying and per-category skip counts.  In particular, for
original = {A,B,C,D}, downloaded = {A} and B classified as
captions-unavailable, the retry batch is {C,D}, the written lines are B's
and C's and D's source lines minus B's, and the captions-unavailable skip
count is 1. -/
theorem c9_iteration_planner :
    (∀ (f : PFV.YtFile) (downloaded noSubs unavail : Finset String),
      PFV.videosToRetry f downloaded noSubs unavail
        = PFV.missingVideos f downloaded \
          (PFV.missingVideos f downloaded ∩ (noSubs ∪ unavail))) ∧
    (∀ (f : PFV.YtFile) (downloaded noSubs unavail failed : Finset String)
        (u : String),
      u ∈ (PFV.create_new_iteration_file f downloaded noSubs unavail failed).1 ↔
        ∃ id ∈ PFV.videosToRetry f downloaded noSubs unavail,
          PFV.videoIdToUrl f id = some u) ∧
    (PFV.videosToRetry c9File {"A"} {"B"} ∅ = {"C", "D"} ∧
     (PFV.create_new_iteration_file c9File {"A"} {"B"} ∅ {"B"}).2
       = ⟨4, 1, 3, 2, 1, 0, 1⟩ ∧
     (PFV.create_new_iteration_file c9File {"A"} {"B"} ∅ {"B"}).1
       = {"uC", "uD"}) := by
  refine ⟨?_, ?_, by decide, by decide, by decide⟩
  · intro f downloaded noSubs unavail
    rw [Finset.sdiff_inter_self_left]
    rfl
  · intro f downloaded noSubs unavail failed u
    unfold PFV.create_new_iteration_file
    simp only [Finset.mem_biUnion]
    constructor
    · rintro ⟨id, hid, hu⟩
      refine ⟨id, hid, ?_⟩
      cases h : PFV.videoIdToUrl f id with
      | none => rw [h] at hu; simp at hu
      | some u' =>
        rw [h] at hu
        rw [Finset.mem_singleton] at hu
        rw [hu]
    · rintro ⟨id, hid, hu⟩
      refine ⟨id, hid, ?_⟩
      rw [hu]
      exact Finset.mem_singleton_self u
/-- Witness for C7 (amended), on a transcript with two consecutive
same-text entries. -/
theorem c7_witness :
    List.Chain' (fun a b => pyStrip a.2 ≠ pyStrip b.2)
      (YTT.save_individual_transcript [⟨"dup", 0, 1⟩, ⟨"dup", 2, 1⟩]) ∧
    ∀ x ∈ YTT.save_individual_transcript [⟨"dup", 0, 1⟩, ⟨"dup", 2, 1⟩],
      pyStrip x.2 = x.2 :=
  c7_save_individual_collapse [⟨"dup", 0, 1⟩, ⟨"dup", 2, 1⟩]

/-- Witness for C9, instantiating the planner theorem on the worked
instance. -/
theorem c9_witness :
    PFV.videosToRetry c9File {"A"} {"B"} ∅ = {"C", "D"} ∧
    ("uC" ∈ (PFV.create_new_iteration_file c9File {"A"} {"B"} ∅ {"B"}).1 ↔
      ∃ id ∈ PFV.videosToRetry c9File {"A"} {"B"} ∅,
        PFV.videoIdToUrl c9File id = some "uC") :=
  ⟨c9_iteration_planner.2.2.1,
    c9_iteration_planner.2.1 c9File {"A"} {"B"} ∅ {"B"} "uC"⟩
example : YTT.dump_status [] [] none 0 0 = YTT.freshStatusStr := by decide
example : YTT.dump_status ["abcdefghijk"] [] none 0 1 = YTT.priorStatusStr := by decide
example :
    YTT.dump_status ["abcdefghijk"] ["xY-9_zzzzzz"] (some "1699999999.75".data) 3 17
      = "\x7b\"completed\": [\"abcdefghijk\"], \"pending\": [\"xY-9_zzzzzz\"], \"last_request_time\": 1699999999.75, \"batch_count\": 3, \"processed_count\": 17\x7d" := by
  decide

theorem skipWsJ_suffix (cs : List Char) : List.IsSuffix (skipWsJ cs) cs := by
  induction cs with
  | nil => exact List.suffix_refl _
  | cons c rest ih =>
    rw [skipWsJ]
    split
    · exact ih.trans (List.suffix_cons c rest)
    · exact List.suffix_refl _

theorem parseLit_suffix (lit cs r : List Char) (h : parseLit lit cs = some r) :
    List.IsSuffix r cs := by
  unfold parseLit at h
  split at h
  · cases h
    exact List.drop_suffix _ _
  · cases h

theorem parseJsonStr_suffix : ∀ (fuel : ℕ) (cs b rest : List Char),
    parseJsonStr fuel cs = some (b, rest) → List.IsSuffix rest cs := by
  intro fuel
  induction fuel with
  | zero => intro cs b rest h; simp [parseJsonStr] at h
  | succ f ih =>
    intro cs b rest h
    unfold parseJsonStr at h
    split at h
    · cases h
    · cases h
      exact List.suffix_cons _ _
    · -- backslash arm
      split at h
      · cases h
      · split at h
        · -- unicode escape
          split at h
          · split at h
            · rcases Option.map_eq_some'.mp h with ⟨⟨b', r'⟩, hp, he⟩
              cases he
              rename_i h1 h2 h3 h4 hrest3 _ _ _ _
              exact (ih _ _ _ hp).trans
                (((((List.suffix_cons _ _).trans (List.suffix_cons _ _)).trans
                  (List.suffix_cons _ _)).trans (List.suffix_cons _ _)).trans
                  ((List.suffix_cons _ _).trans (List.suffix_cons _ _)))
            · cases h
          · cases h
        · split at h
          · rcases Option.map_eq_some'.mp h with ⟨⟨b', r'⟩, hp, he⟩
            cases he
            exact (ih _ _ _ hp).trans
              ((List.suffix_cons _ _).trans (List.suffix_cons _ _))
          · cases h
    · -- plain char arm
      split at h
      · cases h
      · rcases Option.map_eq_some'.mp h with ⟨⟨b', r'⟩, hp, he⟩
        cases he
        exact (ih _ _ _ hp).trans (List.suffix_cons _ _)

theorem parseExp_suffix (base : Frac) (r : List Char) (v : Frac) (rest : List Char)
    (h : parseExp base r = some (v, rest)) : List.IsSuffix rest r := by
  unfold parseExp at h
  split at h
  rename_i eneg r1 heq
  have hr1 : List.IsSuffix r1 r := by
    split at heq
    · cases heq
      exact List.suffix_cons _ _
    · cases heq
      exact List.suffix_cons _ _
    · cases heq
      exact List.suffix_refl _
  simp only [] at h
  split at h
  · cases h
  · cases h
    exact (List.dropWhile_suffix _).trans hr1

theorem parseJsonNum_suffix (cs : List Char) (j : Json) (rest : List Char)
    (h : parseJsonNum cs = some (j, rest)) : List.IsSuffix rest cs := by
  unfold parseJsonNum at h
  split at h
  rename_i neg cs1 heq
  have hcs1 : List.IsSuffix cs1 cs := by
    split at heq
    · cases heq
      exact List.suffix_cons _ _
    · cases heq
      exact List.suffix_refl _
  simp only [] at h
  split at h
  · cases h
  · split at h
    · cases h
    · rename_i base cs3 heq2
      have hcs3 : List.IsSuffix cs3 cs1 := by
        split at heq2
        · rename_i r heqc
          split at heq2
          · cases heq2
          · cases heq2
            have h1 : List.IsSuffix (List.dropWhile Char.isDigit r) ('.' :: r) :=
              (List.dropWhile_suffix _).trans (List.suffix_cons _ _)
            rw [← heqc] at h1
            exact h1.trans (List.dropWhile_suffix _)
        · cases heq2
          exact List.dropWhile_suffix _
      split at h
      · cases h
      · rename_i v2 cs4 heq3
        have hcs4 : List.IsSuffix cs4 cs3 := by
          split at heq3
          · exact (parseExp_suffix _ _ _ _ heq3).trans (List.suffix_cons _ _)
          · exact (parseExp_suffix _ _ _ _ heq3).trans (List.suffix_cons _ _)
          · cases heq3
            exact List.suffix_refl _
        cases h
        exact hcs4.trans (hcs3.trans hcs1)

theorem suffix_of_skipWsJ_cons {cs rest : List Char} {c : Char}
    (h : skipWsJ cs = c :: rest) : List.IsSuffix rest cs := by
  have h1 : List.IsSuffix rest (c :: rest) := List.suffix_cons _ _
  rw [← h] at h1
  exact h1.trans (skipWsJ_suffix cs)

theorem mem_of_skipWsJ_cons {cs rest : List Char} {c : Char}
    (h : skipWsJ cs = c :: rest) : c ∈ cs := by
  have hm : c ∈ skipWsJ cs := by
    rw [h]
    exact List.mem_cons_self _ _
  exact (skipWsJ_suffix cs).subset hm

/-- Simultaneous facts about the three mutually recursive JSON parsers:
each returns a suffix of its input, and a successful object-members parse
must have consumed a closing brace — the input contains `'\x7d'`. -/
theorem parseJ_suffix_brace : ∀ fuel : ℕ,
    (∀ cs v rest, parseJsonVal fuel cs = some (v, rest) → List.IsSuffix rest cs) ∧
    (∀ cs vs rest, parseJsonElems fuel cs = some (vs, rest) → List.IsSuffix rest cs) ∧
    (∀ cs ms rest, parseJsonMembers fuel cs = some (ms, rest) →
      List.IsSuffix rest cs ∧ Char.ofNat 125 ∈ cs) := by
  intro fuel
  induction fuel with
  | zero =>
    refine ⟨?_, ?_, ?_⟩
    · intro cs v rest h
      simp [parseJsonVal] at h
    · intro cs vs rest h
      simp [parseJsonElems] at h
    · intro cs ms rest h
      simp [parseJsonMembers] at h
  | succ f ih =>
    obtain ⟨ihv, ihe, ihm⟩ := ih
    refine ⟨?_, ?_, ?_⟩
    · intro cs v rest h
      unfold parseJsonVal at h
      cases hsk : skipWsJ cs with
      | nil => rw [hsk] at h; cases h
      | cons c rest0 =>
        rw [hsk] at h
        dsimp only at h
        have hskc : List.IsSuffix (c :: rest0) cs := hsk ▸ skipWsJ_suffix cs
        have h0 : List.IsSuffix rest0 cs := (List.suffix_cons c rest0).trans hskc
        by_cases h1 : c = 'n'
        · rw [if_pos h1] at h
          rcases Option.map_eq_some'.mp h with ⟨r, hr, he⟩
          cases he
          exact (parseLit_suffix _ _ _ hr).trans h0
        rw [if_neg h1] at h
        by_cases h2 : c = 't'
        · rw [if_pos h2] at h
          rcases Option.map_eq_some'.mp h with ⟨r, hr, he⟩
          cases he
          exact (parseLit_suffix _ _ _ hr).trans h0
        rw [if_neg h2] at h
        by_cases h3 : c = 'f'
        · rw [if_pos h3] at h
          rcases Option.map_eq_some'.mp h with ⟨r, hr, he⟩
          cases he
          exact (parseLit_suffix _ _ _ hr).trans h0
        rw [if_neg h3] at h
        by_cases h4 : c = 'N'
        · rw [if_pos h4] at h
          rcases Option.map_eq_some'.mp h with ⟨r, hr, he⟩
          cases he
          exact (parseLit_suffix _ _ _ hr).trans h0
        rw [if_neg h4] at h
        by_cases h5 : c = 'I'
        · rw [if_pos h5] at h
          rcases Option.map_eq_some'.mp h with ⟨r, hr, he⟩
          cases he
          exact (parseLit_suffix _ _ _ hr).trans h0
        rw [if_neg h5] at h
        by_cases h6 : c = '"'
        · rw [if_pos h6] at h
          rcases Option.map_eq_some'.mp h with ⟨⟨b, r⟩, hr, he⟩
          cases he
          exact (parseJsonStr_suffix _ _ _ _ hr).trans h0
        rw [if_neg h6] at h
        by_cases h7 : c = '['
        · rw [if_pos h7] at h
          split at h
          · rename_i rest2 heq
            cases h
            exact (suffix_of_skipWsJ_cons heq).trans h0
          · rcases Option.map_eq_some'.mp h with ⟨⟨vs, r⟩, hr, he⟩
            cases he
            exact (ihe _ _ _ hr).trans h0
        rw [if_neg h7] at h
        by_cases h8 : c = Char.ofNat 123
        · rw [if_pos h8] at h
          cases hsk2 : skipWsJ rest0 with
          | nil => rw [hsk2] at h; cases h
          | cons c2 rest2 =>
            rw [hsk2] at h
            dsimp only at h
            by_cases hc2 : c2 = Char.ofNat 125
            · rw [if_pos hc2] at h
              cases h
              exact (suffix_of_skipWsJ_cons hsk2).trans h0
            · rw [if_neg hc2] at h
              rcases Option.map_eq_some'.mp h with ⟨⟨ms, r⟩, hr, he⟩
              cases he
              exact ((ihm _ _ _ hr).1).trans h0
        rw [if_neg h8] at h
        by_cases h9 : c = '-'
        · rw [if_pos h9] at h
          split at h
          · rename_i rest2
            rcases Option.map_eq_some'.mp h with ⟨r, hr, he⟩
            cases he
            exact (parseLit_suffix _ _ _ hr).trans
              ((List.suffix_cons _ _).trans h0)
          · exact (parseJsonNum_suffix _ _ _ h).trans hskc
        rw [if_neg h9] at h
        by_cases h10 : c.isDigit
        · rw [if_pos h10] at h
          exact (parseJsonNum_suffix _ _ _ h).trans hskc
        · rw [if_neg h10] at h
          cases h
    · intro cs vs rest h
      unfold parseJsonElems at h
      rcases Option.bind_eq_some.mp h with ⟨⟨v1, cs1⟩, hv, hrest⟩
      have hcs1 : List.IsSuffix cs1 cs := ihv _ _ _ hv
      simp only [] at hrest
      split at hrest
      · rename_i rest' heq
        rcases Option.bind_eq_some.mp hrest with ⟨⟨vs2, cs2⟩, he2, hpure⟩
        cases hpure
        exact (ihe _ _ _ he2).trans ((suffix_of_skipWsJ_cons heq).trans hcs1)
      · rename_i rest' heq
        cases hrest
        exact (suffix_of_skipWsJ_cons heq).trans hcs1
      · cases hrest
    · intro cs ms rest h
      unfold parseJsonMembers at h
      split at h
      case _ rest' heq =>
        rcases Option.bind_eq_some.mp h with ⟨⟨kk, cs1⟩, hstr, h2⟩
        have hrest' : List.IsSuffix rest' cs := suffix_of_skipWsJ_cons heq
        have hcs1 : List.IsSuffix cs1 cs :=
          (parseJsonStr_suffix _ _ _ _ hstr).trans hrest'
        simp only [] at h2
        split at h2
        case _ cs2 heq2 =>
          rcases Option.bind_eq_some.mp h2 with ⟨⟨v1, cs3⟩, hval, h3⟩
          have hcs3 : List.IsSuffix cs3 cs :=
            (ihv _ _ _ hval).trans ((suffix_of_skipWsJ_cons heq2).trans hcs1)
          simp only [] at h3
          split at h3
          case _ cs4 heq3 =>
            rcases Option.bind_eq_some.mp h3 with ⟨⟨ms2, cs5⟩, hmem, hpure⟩
            cases hpure
            obtain ⟨hsuf5, hbr⟩ := ihm _ _ _ hmem
            have hcs4 : List.IsSuffix cs4 cs :=
              (suffix_of_skipWsJ_cons heq3).trans hcs3
            exact ⟨hsuf5.trans hcs4, hcs4.subset hbr⟩
          case _ =>
            rename_i c3 cs4 hne heq3
            split at h3
            · rename_i hc3
              cases h3
              refine ⟨(suffix_of_skipWsJ_cons heq3).trans hcs3, ?_⟩
              have hcm : c3 ∈ cs := hcs3.subset (mem_of_skipWsJ_cons heq3)
              rw [← hc3]
              exact hcm
            · cases h3
          case _ => cases h3
        case _ => cases h2
      case _ => cases h

/-- A value parse of an input whose first non-whitespace character is an
opening brace can only succeed by consuming a closing brace: the input
contains `'\x7d'`. -/
theorem parseJsonVal_obj_brace : ∀ (fuel : ℕ) (cs r : List Char) (v : Json)
    (rest : List Char), skipWsJ cs = Char.ofNat 123 :: r →
    parseJsonVal fuel cs = some (v, rest) → Char.ofNat 125 ∈ cs := by
  intro fuel cs r v rest hsk h
  cases fuel with
  | zero => simp [parseJsonVal] at h
  | succ f =>
    unfold parseJsonVal at h
    rw [hsk] at h
    dsimp only at h
    rw [if_neg (by decide), if_neg (by decide), if_neg (by decide), if_neg (by decide),
        if_neg (by decide), if_neg (by decide), if_neg (by decide), if_pos rfl] at h
    cases hsk2 : skipWsJ r with
    | nil => rw [hsk2] at h; cases h
    | cons c2 rest2 =>
      rw [hsk2] at h
      dsimp only at h
      by_cases hc2 : c2 = Char.ofNat 125
      · have h1 : c2 ∈ r := mem_of_skipWsJ_cons hsk2
        have h2 : r ⊆ cs := (suffix_of_skipWsJ_cons hsk).subset
        rw [← hc2]
        exact h2 h1
      · rw [if_neg hc2] at h
        rcases Option.map_eq_some'.mp h with ⟨⟨ms, rr⟩, hm, he⟩
        have hbr := ((parseJ_suffix_brace f).2.2 _ _ _ hm).2
        exact (suffix_of_skipWsJ_cons hsk).subset hbr

/-- A string starting with an opening brace and containing no closing brace
never parses as JSON. -/
theorem parseJson_obj_prefix_none (s : String) (r : List Char)
    (hhead : s.data = Char.ofNat 123 :: r) (hnb : Char.ofNat 125 ∉ s.data) :
    parseJson s = none := by
  unfold parseJson
  cases hpv : parseJsonVal (4 * s.data.length + 16) s.data with
  | none => rfl
  | some p =>
    exfalso
    have hsk : skipWsJ s.data = Char.ofNat 123 :: r := by
      rw [hhead, skipWsJ, if_neg (by decide)]
    exact hnb (parseJsonVal_obj_brace _ _ _ p.1 p.2 hsk (by rw [hpv]))

theorem natDigitsAux_digits : ∀ (f n : ℕ) (acc : List Char),
    (∀ c ∈ acc, c.isDigit = true) → ∀ c ∈ natDigitsAux f n acc, c.isDigit = true := by
  intro f
  induction f with
  | zero =>
    intro n acc hacc c hc
    exact hacc c hc
  | succ f ih =>
    intro n acc hacc c hc
    rw [natDigitsAux] at hc
    split at hc
    · exact hacc c hc
    · refine ih _ _ ?_ c hc
      intro c2 hc2
      rcases List.mem_cons.mp hc2 with rfl | hc2
      · have hm : n % 10 < 10 := Nat.mod_lt _ (by norm_num)
        set m := n % 10 with hmdef
        interval_cases m <;> decide
      · exact hacc c2 hc2

theorem natDigits_digits (n : ℕ) : ∀ c ∈ natDigits n, c.isDigit = true := by
  intro c hc
  rw [natDigits] at hc
  split at hc
  · rcases List.mem_singleton.mp hc with rfl
    decide
  · exact natDigitsAux_digits _ _ _
      (fun c2 hc2 => absurd hc2 (List.not_mem_nil c2)) c hc

theorem mem_joinCommaChars : ∀ (L : List (List Char)) (ch : Char),
    ch ∈ joinCommaChars L → (∃ x ∈ L, ch ∈ x) ∨ ch = ',' ∨ ch = ' '
  | [], ch, h => by simp [joinCommaChars] at h
  | [x], ch, h => by
    left
    exact ⟨x, List.mem_singleton_self x, by simpa [joinCommaChars] using h⟩
  | x :: y :: rest, ch, h => by
    rw [joinCommaChars] at h
    rcases List.mem_append.mp h with h1 | h2
    · exact Or.inl ⟨x, List.mem_cons_self _ _, h1⟩
    · rcases List.mem_cons.mp h2 with rfl | h3
      · exact Or.inr (Or.inl rfl)
      · rcases List.mem_cons.mp h3 with rfl | h4
        · exact Or.inr (Or.inr rfl)
        · rcases mem_joinCommaChars (y :: rest) ch h4 with ⟨z, hz, hchz⟩ | h5
          · exact Or.inl ⟨z, List.mem_cons_of_mem _ hz, hchz⟩
          · exact Or.inr h5

theorem mem_dumpStrListChars (l : List String) (ch : Char)
    (h : ch ∈ dumpStrListChars l) :
    ch = '[' ∨ ch = ']' ∨ ch = '"' ∨ ch = ',' ∨ ch = ' ' ∨ ∃ s ∈ l, ch ∈ s.data := by
  rw [dumpStrListChars] at h
  rcases List.mem_cons.mp h with rfl | h2
  · exact Or.inl rfl
  rcases List.mem_append.mp h2 with h3 | h4
  · rcases mem_joinCommaChars _ _ h3 with ⟨x, hx, hchx⟩ | h5
    · rcases List.mem_map.mp hx with ⟨s, hs, rfl⟩
      rw [dumpStrChars] at hchx
      rcases List.mem_cons.mp hchx with rfl | h6
      · exact Or.inr (Or.inr (Or.inl rfl))
      rcases List.mem_append.mp h6 with h7 | h8
      · exact Or.inr (Or.inr (Or.inr (Or.inr (Or.inr ⟨s, hs, h7⟩))))
      · rcases List.mem_singleton.mp h8 with rfl
        exact Or.inr (Or.inr (Or.inl rfl))
    · rcases h5 with rfl | rfl
      · exact Or.inr (Or.inr (Or.inr (Or.inl rfl)))
      · exact Or.inr (Or.inr (Or.inr (Or.inr (Or.inl rfl))))
  · rcases List.mem_singleton.mp h4 with rfl
    exact Or.inr (Or.inl rfl)

/-- The characters between the braces of a serialized status never include
a closing brace, provided the stored ids are over the id alphabet and the
`last_request_time` token is a decimal float rendering. -/
theorem statusBody_no_brace (completed pending : List String)
    (lrtTok : Option (List Char)) (bc pc : ℕ)
    (hc : ∀ s ∈ completed, ∀ ch ∈ s.data, idChar ch = true)
    (hp : ∀ s ∈ pending, ∀ ch ∈ s.data, idChar ch = true)
    (hl : ∀ ch ∈ lrtTok.getD [], ch.isDigit = true ∨ ch = '.') :
    Char.ofNat 125 ∉ YTT.statusBodyChars completed pending lrtTok bc pc := by
  intro hmem
  have hlist : ∀ (l : List String), (∀ s ∈ l, ∀ ch ∈ s.data, idChar ch = true) →
      Char.ofNat 125 ∉ dumpStrListChars l := by
    intro l hall hm
    rcases mem_dumpStrListChars l _ hm with h | h | h | h | h | ⟨s, hs, hchs⟩
    · exact absurd h (by decide)
    · exact absurd h (by decide)
    · exact absurd h (by decide)
    · exact absurd h (by decide)
    · exact absurd h (by decide)
    · exact absurd (hall s hs _ hchs) (by decide)
  have hnat : ∀ n, Char.ofNat 125 ∉ natDigits n := by
    intro n hm
    exact absurd (natDigits_digits n _ hm) (by decide)
  unfold YTT.statusBodyChars at hmem
  simp only [List.mem_append] at hmem
  rcases hmem with ((((((((h | h) | h) | h) | h) | h) | h) | h) | h) | h
  · exact absurd h (by decide)
  · exact hlist completed hc h
  · exact absurd h (by decide)
  · exact hlist pending hp h
  · exact absurd h (by decide)
  · cases hlt : lrtTok with
    | none =>
      rw [hlt] at h
      exact absurd h (by decide)
    | some t =>
      rw [hlt] at h
      have := hl _ (by rw [hlt]; exact h)
      rcases this with hd | hd
      · exact absurd hd (by decide)
      · exact absurd hd (by decide)
  · exact absurd h (by decide)
  · exact hnat bc h
  · exact absurd h (by decide)
  · exact hnat pc h

/-- **C3 (amended).** `save_status` is not atomic — a crash mid-save leaves a
strict prefix of the new serialization, destroying the prior state
(`c3_counterexample`) — but the read-back half of the claim holds in general:
for EVERY status the transcriber can serialize (any completed/pending id
lists over the id alphabet, any `last_request_time` float token or `null`,
any batch/processed counters) and every crash point `k` strictly before the
end of the write, the partial file fails to parse as JSON and `load_status`
then returns the fresh default, never a bogus intermediate state; the
serializer model agrees with the exact `json.dump` output on the fresh
status. -/
theorem c3_amended (completed pending : List String) (lrtTok : Option (List Char))
    (bc pc k : ℕ)
    (hcomp : ∀ s ∈ completed, ∀ ch ∈ s.data, idChar ch = true)
    (hpend : ∀ s ∈ pending, ∀ ch ∈ s.data, idChar ch = true)
    (hlrt : ∀ ch ∈ lrtTok.getD [], ch.isDigit = true ∨ ch = '.')
    (hk : k < (YTT.dump_status completed pending lrtTok bc pc).data.length) :
    parseJson (YTT.save_status_crash
      (YTT.dump_status completed pending lrtTok bc pc) k) = none ∧
    YTT.load_status (some (YTT.save_status_crash
      (YTT.dump_status completed pending lrtTok bc pc) k)) = YTT.defaultStatusJson ∧
    YTT.dump_status [] [] none 0 0 = YTT.freshStatusStr := by
  have hparse : parseJson (YTT.save_status_crash
      (YTT.dump_status completed pending lrtTok bc pc) k) = none := by
    cases k with
    | zero =>
      have h0 : YTT.save_status_crash (YTT.dump_status completed pending lrtTok bc pc) 0
          = ⟨[]⟩ := by
        show (⟨(YTT.dump_status completed pending lrtTok bc pc).data.take 0⟩ : String) = ⟨[]⟩
        rw [List.take_zero]
      rw [h0]
      rfl
    | succ k' =>
      have hlen2 : (YTT.dump_status completed pending lrtTok bc pc).data.length
          = (YTT.statusBodyChars completed pending lrtTok bc pc).length + 2 := by
        show (Char.ofNat 123 :: YTT.statusBodyChars completed pending lrtTok bc pc
            ++ [Char.ofNat 125]).length = _
        rw [List.length_append, List.length_cons, List.length_singleton]
      have hlen : k' ≤ (YTT.statusBodyChars completed pending lrtTok bc pc).length := by
        rw [hlen2] at hk
        omega
      have htake : (YTT.save_status_crash
          (YTT.dump_status completed pending lrtTok bc pc) (k' + 1)).data
          = Char.ofNat 123 ::
            (YTT.statusBodyChars completed pending lrtTok bc pc).take k' := by
        show (Char.ofNat 123 :: (YTT.statusBodyChars completed pending lrtTok bc pc
            ++ [Char.ofNat 125])).take (k' + 1) = _
        rw [List.take_succ_cons]
        congr 1
        rw [List.take_append_eq_append_take, Nat.sub_eq_zero_of_le hlen,
          List.take_zero, List.append_nil]
      refine parseJson_obj_prefix_none _ _ htake ?_
      rw [htake]
      intro hmem
      rcases List.mem_cons.mp hmem with h125 | hmem2
      · exact absurd h125 (by decide)
      · exact statusBody_no_brace completed pending lrtTok bc pc hcomp hpend hlrt
          (List.take_subset _ _ hmem2)
  exact ⟨hparse, load_statusWith_of_parse_fail _ _ hparse, by decide⟩

set_option maxRecDepth 4000 in
/-- Witness for `c3_amended` at a mid-run status: one completed id, a float
`last_request_time`, nonzero processed count, crash after 25 characters. -/
theorem c3_witness :
    parseJson (YTT.save_status_crash
      (YTT.dump_status ["abcdefghijk"] [] (some "1699999999.75".data) 0 1) 25) = none ∧
    YTT.load_status (some (YTT.save_status_crash
      (YTT.dump_status ["abcdefghijk"] [] (some "1699999999.75".data) 0 1) 25))
      = YTT.defaultStatusJson ∧
    YTT.dump_status [] [] none 0 0 = YTT.freshStatusStr :=
  c3_amended ["abcdefghijk"] [] (some "1699999999.75".data) 0 1 25
    (by decide) (by decide) (by decide) (by decide)
